import Mathlib

/-!
Shallow embedding of the js-data relational-linking core:
`src/Relation/BelongsTo.js`, `src/Relation/HasOne.js` and the `DataStore`
module (`defineMapper`, `destroy`, `destroyAll`, `DATASTORE_DEFAULTS`).

We model one concrete BelongsTo relation from a Child entity type to a
Parent entity type (foreign-key field `fk`, link field `link`, identifier
field `id`), with an optional inverse (HasOne or HasMany) declared on the
Parent type, plus the Parent-side HasOne descriptor.  Records are JS
objects, so they are modelled as heap references (`Nat`) into total heaps;
object identity (`===`) is reference equality.  JS `undefined`/`null`
identifier and foreign-key values are `Option.none`.

Pieces of the repository that the claims depend on but that are not under
`src/` (`Record#removeInverseRelation`, `Record#setupInverseRelation`,
`Collection#updateIndex`, `SimpleStore#get`, `utils.fillIn`, the Mapper
constructor's relation-kind validation, and the meaning of `_get('$')`)
are modelled from the spec; each such definition carries a doc comment
starting with `Modelled from the spec:`.
-/

/-- The two possible inverse relation kinds of a BelongsTo relation
(`hasOneType` / `hasManyType` in the source). -/
inductive IKind where
  | hasOne : IKind
  | hasMany : IKind
deriving DecidableEq, Repr

/-- A Child-type record: its identifier attribute (`utils.get(this, idAttribute)`),
its stored foreign-key property (`props.<foreignKey>`), its link slot
(`links.<localField>`, holding a reference to a Parent object), and its
`_get('$')` flag.

Modelled from the spec: the `$` meta-flag (read by `this._get('$')` in
`BelongsTo.js`) records whether the record is currently present in its
owning Collection; the collection sets it on add and clears it on remove. -/
structure ChildRec where
  id : Option Nat
  fk : Option Nat
  link : Option Nat
  inStore : Bool
deriving DecidableEq, Repr

/-- A Parent-type record: its identifier attribute, its HasOne inverse
link slot (`links.<inverseDef.localField>` holding a Child reference) and
its HasMany inverse link collection (an ordered list of Child references).
Only the field matching the declared inverse kind is ever consulted. -/
structure ParentRec where
  id : Option Nat
  slot : Option Nat
  many : List Nat
deriving DecidableEq, Repr

/-- The store state: the two object heaps (total over references), the
membership lists of the two Collections (used by `store.get`), and the
Child Collection's secondary index on the foreign-key field
(bucket of Child references per foreign-key value, the `undefined` bucket
included). -/
structure State where
  children : Nat → ChildRec
  parents : Nat → ParentRec
  parentColl : List Nat
  childColl : List Nat
  fkIndex : Option Nat → List Nat

/-- Update one Child record in the heap. -/
def updChild (s : State) (c : Nat) (f : ChildRec → ChildRec) : State :=
  { s with children := fun r => if r = c then f (s.children r) else s.children r }

/-- Update one Parent record in the heap. -/
def updParent (s : State) (p : Nat) (f : ParentRec → ParentRec) : State :=
  { s with parents := fun r => if r = p then f (s.parents r) else s.parents r }

/-- Modelled from the spec: `store.get(relation, id)` / `Collection#get`
on the Parent Collection — the stored Parent whose identifier equals the
given value, if one is present. -/
def storeGetParent (s : State) (v : Nat) : Option Nat :=
  s.parentColl.find? (fun r => decide ((s.parents r).id = some v))

/-- Modelled from the spec: `store.get(relation, id)` on the Child
Collection (used by the HasOne descriptor's canonicalization). -/
def storeGetChild (s : State) (v : Nat) : Option Nat :=
  s.childColl.find? (fun r => decide ((s.children r).id = some v))

/-- Modelled from the spec: `collection.updateIndex(record, {index: foreignKey})`
repositions the record within the foreign-key index's buckets — remove it
from its old bucket, insert it into the bucket keyed by the record's
current foreign-key value. -/
def updateIndex (s : State) (c : Nat) : State :=
  { s with fkIndex := fun k =>
      let b := (s.fkIndex k).filter (fun r => decide (r ≠ c))
      if k = (s.children c).fk then b ++ [c] else b }

/-- Modelled from the spec: `Record#removeInverseRelation(currentParent, id, inverseDef, idAttribute)`
(§4.3 step 3) — HasOne: clear the parent's slot if it equals the child;
HasMany: remove any member equal to the child, or equal by identifier when
the child's identifier is known.  (The HasMany branch coincides with the
inline teardown in `foreignKeyDescriptor.set`, which is under `src/`.) -/
def removeInverseRelation (ik : IKind) (s : State) (cp c : Nat) (id : Option Nat) : State :=
  match ik with
  | .hasOne =>
      updParent s cp (fun p => if p.slot = some c then { p with slot := none } else p)
  | .hasMany =>
      updParent s cp (fun p =>
        { p with many :=
            if id = none then p.many.filter (fun r => decide (r ≠ c))
            else p.many.filter (fun r => decide (¬ (r = c ∨ (s.children r).id = id))) })

/-- Modelled from the spec: `Record#setupInverseRelation(record, id, inverseDef, idAttribute)`
(§4.3 step 4) — insert the child into the new parent's inverse
slot/collection (no duplicate is created when it is already a member,
per the teardown-before-attach property of §8). -/
def setupInverseRelation (ik : IKind) (s : State) (np c : Nat) : State :=
  match ik with
  | .hasOne => updParent s np (fun p => { p with slot := some c })
  | .hasMany => updParent s np (fun p =>
      if c ∈ p.many then p else { p with many := p.many ++ [c] })

/-- From `BelongsTo.js` `descriptor.set`: the teardown step — if a current
parent exists and an inverse definition is declared, remove the child from
the current parent's inverse slot/collection. -/
def belongsToTeardown (inv : Option IKind) (s : State) (c : Nat) : State :=
  match (s.children c).link, inv with
  | some cp, some ik => removeInverseRelation ik s cp c (s.children c).id
  | _, _ => s

/-- From `BelongsTo.js` `descriptor.set`, truthy branch: read the related
identifier from the record passed in, prefer the store's canonical Parent
instance when that identifier is defined and the child is in its
Collection (`this._get('$')`), set the child's link and foreign-key
fields, update the foreign-key index, and set up the inverse relation
when one is declared.  Returns the (possibly substituted) parent. -/
def belongsToAttach (inv : Option IKind) (s : State) (c : Nat) (p0 : Nat) :
    State × Option Nat :=
  let relatedId := (s.parents p0).id
  let p :=
    match relatedId, (s.children c).inStore with
    | some v, true => (storeGetParent s v).getD p0
    | _, _ => p0
  let s2 := updChild s c (fun ch => { ch with link := some p, fk := relatedId })
  let s3 := updateIndex s2 c
  let s4 :=
    match inv with
    | some ik => setupInverseRelation ik s3 p c
    | none => s3
  (s4, some p)

/-- From `BelongsTo.js` `createDescriptor`'s `descriptor.set` (the
link-field setter, e.g. `comment.post = somePost`): no-op when the record
assigned is identical (`===`) to the current parent; otherwise tear down
the old inverse link, then either attach the new parent (truthy branch)
or unset the in-memory link only (falsy branch). -/
def belongsToSetLink (inv : Option IKind) (s : State) (c : Nat) (rec? : Option Nat) :
    State × Option Nat :=
  if rec? = (s.children c).link then (s, rec?)
  else
    let s1 := belongsToTeardown inv s c
    match rec? with
    | some p0 => belongsToAttach inv s1 c p0
    | none => (updChild s1 c (fun ch => { ch with link := none }), none)

/-- `utils.get(currentParent, def.getRelation().idAttribute)` when a
current parent exists, `undefined` otherwise — the `currentParentId` of
`foreignKeyDescriptor.set`. -/
def currentParentIdOf (s : State) (c : Nat) : Option Nat :=
  match (s.children c).link with
  | some cp => (s.parents cp).id
  | none => none

/-- From `BelongsTo.js` `foreignKeyDescriptor.set`: the inline inverse
teardown, executed when an inverse is declared, a current parent exists,
and its identifier is defined and differs from the assigned value.
HasOne: unconditionally clear the current parent's slot; HasMany: remove
members equal to the child (or equal by the child's identifier when it is
known). -/
def fkInlineRemove (ik : IKind) (s : State) (cp c : Nat) : State :=
  match ik with
  | .hasOne => updParent s cp (fun p => { p with slot := none })
  | .hasMany => updParent s cp (fun p =>
      { p with many :=
          if (s.children c).id = none then
            p.many.filter (fun r => decide (r ≠ c))
          else
            p.many.filter (fun r => decide (¬ (r = c ∨ (s.children r).id = (s.children c).id))) })

/-- The guard of the inline teardown: an inverse is declared, a current
parent exists, and its identifier is defined and differs from the value
being assigned. -/
def belongsToFKTeardown (inv : Option IKind) (s : State) (c : Nat) (value : Option Nat) :
    State :=
  match inv with
  | none => s
  | some ik =>
    match (s.children c).link with
    | none => s
    | some cp =>
      if currentParentIdOf s c ≠ none ∧ currentParentIdOf s c ≠ value then
        fkInlineRemove ik s cp c
      else s

/-- From `BelongsTo.js` `foreignKeyDescriptor.set` (the scalar foreign-key
setter, e.g. `comment.postId = 2`): inline inverse teardown, raw
foreign-key write (`utils.safeSetProp`), index update, then — for a
null/undefined value — clear the link field through the full link-field
setter (`utils.set`) when a previous parent id existed, or — for a defined
value, when the child is in its Collection — eagerly resolve the link
through the full link-field setter when the Parent Collection holds a
record with that identifier (the link is left untouched otherwise). -/
def belongsToSetFK (inv : Option IKind) (s : State) (c : Nat) (value : Option Nat) :
    State :=
  let cpid := currentParentIdOf s c
  let s1 := belongsToFKTeardown inv s c value
  let s2 := updChild s1 c (fun ch => { ch with fk := value })
  let s3 := updateIndex s2 c
  match value with
  | none =>
      if cpid ≠ none then (belongsToSetLink inv s3 c none).1 else s3
  | some v =>
      if (s3.children c).inStore then
        match storeGetParent s3 v with
        | some storeRecord => (belongsToSetLink inv s3 c (some storeRecord)).1
        | none => s3
      else s3

/-- From `HasOne.js` `createDescriptor`'s `set` (e.g. `user.profile = someProfile`):
no-op on identical assignment; otherwise dereference
`def.getInverse(mapper).localField` — which fails (a thrown `TypeError`)
when no inverse BelongsTo definition resolves on the related type — then
tear down the current child's foreign key, index entry and inverse link,
and either attach the new child (preferring the store's canonical
instance) or unset the local slot. -/
def hasOneSetLink (hasInverse : Bool) (s : State) (p : Nat) (rec? : Option Nat) :
    Except Unit (State × Option Nat) :=
  if rec? = (s.parents p).slot then .ok (s, rec?)
  else if !hasInverse then .error ()
  else
    let s1 :=
      match (s.parents p).slot with
      | some cur =>
          let sA := updChild s cur (fun ch => { ch with fk := none })
          let sB := updateIndex sA cur
          updChild sB cur (fun ch => { ch with link := none })
      | none => s
    match rec? with
    | some c0 =>
        let relatedId := (s1.children c0).id
        let c :=
          match relatedId with
          | some v => (storeGetChild s1 v).getD c0
          | none => c0
        let s2 := updParent s1 p (fun pr => { pr with slot := some c })
        let s3 := updChild s2 c (fun ch => { ch with fk := (s2.parents p).id })
        let s4 := updateIndex s3 c
        let s5 := updChild s4 c (fun ch => { ch with link := some p })
        .ok (s5, some c)
    | none =>
        .ok (updParent s1 p (fun pr => { pr with slot := none }), none)

/-- From `BelongsTo.js`: `BelongsToRelation.createChildRecord` throws
unconditionally; no state is produced (no mutation occurs). -/
def belongsToChildErrorMsg : String :=
  "BelongsTo relation does not support child creation as it cannot have children."

/-- From `BelongsTo.js`: the child-creation operation of a BelongsTo
relation, as a state transformer — it always fails and never yields a
successor state. -/
def createChildRecord (_s : State) : Except String (State × Option Nat) :=
  .error belongsToChildErrorMsg

/-- From `DataStore.js` `DATASTORE_DEFAULTS`: `unlinkOnDestroy` defaults
to `true`. -/
def DATASTORE_DEFAULTS_unlinkOnDestroy : Bool := true

/-- The observable DataStore configuration the destroy path reads. -/
structure DataStore where
  unlinkOnDestroy : Bool
deriving DecidableEq, Repr

/-- From the `DataStore` constructor: `utils.fillIn(opts, DATASTORE_DEFAULTS)`.
Modelled from the spec: `fillIn` copies a default onto the options only
when the option is missing, so an explicitly passed value wins. -/
def mkDataStore (optsUnlinkOnDestroy : Option Bool) : DataStore :=
  { unlinkOnDestroy := optsUnlinkOnDestroy.getD DATASTORE_DEFAULTS_unlinkOnDestroy }

/-- From `DataStore.js` `destroy`, the post-destroy unlink pass for a
destroyed Child-type record (its single declared relation is the
BelongsTo): when `unlinkOnDestroy` holds, run
`utils.set(record, def.localField, undefined)`, which triggers the full
BelongsTo link-field setter with `undefined`. -/
def destroyUnlinkChild (inv : Option IKind) (u : Bool) (s : State) (c : Nat) : State :=
  if u then (belongsToSetLink inv s c none).1 else s

/-- From `DataStore.js` `destroy`, the post-destroy unlink pass for a
destroyed Parent-type record whose single declared relation is the HasOne:
when `unlinkOnDestroy` holds, `utils.set(record, def.localField, undefined)`
triggers the full HasOne setter with `undefined`. -/
def destroyUnlinkParentHasOne (hasInverse : Bool) (u : Bool) (s : State) (p : Nat) :
    Except Unit State :=
  if u then (hasOneSetLink hasInverse s p none).map Prod.fst else .ok s

/-- From `DataStore.js` `destroyAll`: the unlink pass runs only when the
result set is non-empty and `unlinkOnDestroy` holds, and then applies the
per-record unlink to each destroyed record. -/
def destroyAllUnlinkChild (inv : Option IKind) (u : Bool) (s : State) (cs : List Nat) :
    State :=
  if cs ≠ [] ∧ u then cs.foldl (fun t c => (belongsToSetLink inv t c none).1) s else s

/-- A relation definition as `defineMapper` sees it: its kind tag and its
local field name. -/
structure RelDef where
  rtype : String
  localField : String
deriving DecidableEq, Repr

/-- A relation-kind registry entry: `createDescriptor` may produce a
descriptor or `undefined`. -/
def Registry : Type := List (String × (RelDef → Option Unit))

/-- From `DataStore.js` `defineMapper`'s `relationList.forEach`: for each
relation whose kind is a key of `relationshipTypes`
(`Object.prototype.hasOwnProperty`), ask its `createDescriptor` for a
descriptor; install the link field only when a descriptor was produced
(`if (descriptor) { ... Object.defineProperty ... }`), silently skipping
the relation otherwise.  Returns the local field names that got a link
field installed. -/
def installLinkFields (registry : Registry) (defs : List RelDef) : List String :=
  defs.filterMap (fun d =>
    match registry.find? (fun kv => decide (kv.1 = d.rtype)) with
    | some kv => (kv.2 d).map (fun _ => d.localField)
    | none => none)

/-- The configuration-error message for an unregistered relation kind. -/
def unknownRelationKindMsg : String := "ConfigurationError: unregistered relation kind"

/-- `defineMapper` for one mapper's relation list.  Modelled from the spec:
the Mapper constructor (not under `src/`) builds the relation list before
the `forEach` in `DataStore.js` runs, and relation construction fails with
a configuration error when a relation references a kind that was never
registered (§4.1 `lookup`); the descriptor-installation loop itself is the
`src/` code of `installLinkFields`. -/
def defineMapperModel (registry : Registry) (defs : List RelDef) :
    Except String (List String) :=
  if defs.all (fun d => (registry.find? (fun kv => decide (kv.1 = d.rtype))).isSome) then
    .ok (installLinkFields registry defs)
  else
    .error unknownRelationKindMsg

/-- Does the Parent's declared inverse slot/collection contain the Child
reference? (`Parent's link collection/slot contains Child`). -/
def containsInverseB (ik : IKind) (p : ParentRec) (c : Nat) : Bool :=
  match ik with
  | .hasOne => decide (p.slot = some c)
  | .hasMany => decide (c ∈ p.many)

/-- `Child.L is defined` implies `Child.FK == Child.L.ID` (first half of
the cross-entity BelongsTo invariant), for one Child reference. -/
def linkFkConsistentB (s : State) (c : Nat) : Bool :=
  match (s.children c).link with
  | some pr => decide ((s.children c).fk = (s.parents pr).id)
  | none => true

/-- `Parent's link collection/slot contains Child` if and only if
`Child.FK == Parent.ID and Child.L == Parent` (second half of the
cross-entity invariant), for one Child/Parent reference pair. -/
def inverseConsistentB (ik : IKind) (s : State) (c pr : Nat) : Bool :=
  containsInverseB ik (s.parents pr) c ==
    (decide ((s.children c).fk = (s.parents pr).id) &&
     decide ((s.children c).link = some pr))

/-- The cross-entity BelongsTo invariant over the given sets of Child and
Parent references; the inverse half applies only when an inverse is
declared. -/
def invariantB (inv : Option IKind) (s : State) (Cs Ps : List Nat) : Bool :=
  Cs.all (fun c =>
    linkFkConsistentB s c &&
    (match inv with
     | some ik => Ps.all (fun pr => inverseConsistentB ik s c pr)
     | none => true))

/-- How many times the Parent's declared inverse slot/collection holds the
Child reference (a slot holds it at most once; a collection may hold
duplicates). -/
def inverseCount (ik : IKind) (p : ParentRec) (c : Nat) : Nat :=
  match ik with
  | .hasOne => if p.slot = some c then 1 else 0
  | .hasMany => p.many.count c

/-- The default (absent) Child record of the heaps used in concrete states. -/
def defaultChild : ChildRec := ⟨none, none, none, false⟩

/-- The default (absent) Parent record of the heaps used in concrete states. -/
def defaultParent : ParentRec := ⟨none, none, []⟩

/-- Concrete state: Child 0 (id 10) stored and consistently linked to
stored Parent 1 (id 1) with a HasMany inverse; no Parent with id 2 is
loaded. -/
def stateLinked : State where
  children := fun r => if r = 0 then ⟨some 10, some 1, some 1, true⟩ else defaultChild
  parents := fun r =>
    if r = 1 then ⟨some 1, none, [0]⟩
    else if r = 2 then ⟨some 2, none, []⟩
    else defaultParent
  parentColl := [1]
  childColl := [0]
  fkIndex := fun k => if k = some 1 then [0] else []

/-- Concrete state: Child 0 stored with a stale foreign key (`fk = 2`)
while its link field still points at stored Parent 1 (id 1) — the state
`belongsToSetFK` produces from `stateLinked` when the new foreign key
resolves to no loaded Parent. -/
def stateStale : State where
  children := fun r => if r = 0 then ⟨some 10, some 2, some 1, true⟩ else defaultChild
  parents := fun r => if r = 1 then ⟨some 1, none, [0]⟩ else defaultParent
  parentColl := [1]
  childColl := [0]
  fkIndex := fun k => if k = some 2 then [0] else []

/-- Concrete state: detached Child 0 (id 10, not in its Collection),
stored Parent 1 with id 5, and detached Parent 3 sharing id 5. -/
def stateDetachedChild : State where
  children := fun r => if r = 0 then ⟨some 10, none, none, false⟩ else defaultChild
  parents := fun r =>
    if r = 1 then ⟨some 5, none, []⟩
    else if r = 3 then ⟨some 5, none, []⟩
    else defaultParent
  parentColl := [1]
  childColl := []
  fkIndex := fun _ => []

/-- Concrete state: stored Child 0 already linked to detached Parent 3
(id 5) while stored Parent 1 shares id 5. -/
def stateLinkedDetached : State where
  children := fun r => if r = 0 then ⟨some 10, some 5, some 3, true⟩ else defaultChild
  parents := fun r =>
    if r = 1 then ⟨some 5, none, []⟩
    else if r = 3 then ⟨some 5, none, []⟩
    else defaultParent
  parentColl := [1]
  childColl := [0]
  fkIndex := fun k => if k = some 5 then [0] else []

/-- Concrete state: Parent 0 (id 1) holds Child 0 (id 10) in its HasOne
slot; the child's foreign key and link agree. -/
def stateHasOneLinked : State where
  children := fun r => if r = 0 then ⟨some 10, some 1, some 0, true⟩ else defaultChild
  parents := fun r => if r = 0 then ⟨some 1, some 0, []⟩ else defaultParent
  parentColl := [0]
  childColl := [0]
  fkIndex := fun k => if k = some 1 then [0] else []

/-- Concrete state: fresh Parent 0 (empty HasOne slot) and fresh Child 0. -/
def stateFresh : State where
  children := fun r => if r = 0 then ⟨some 10, none, none, true⟩ else defaultChild
  parents := fun r =>
    if r = 0 then ⟨some 1, none, []⟩
    else if r = 1 then ⟨some 2, none, []⟩
    else defaultParent
  parentColl := [0, 1]
  childColl := [0]
  fkIndex := fun _ => []

@[simp] theorem updChild_children_self (s : State) (c : Nat) (f : ChildRec → ChildRec) :
    (updChild s c f).children c = f (s.children c) := by
  simp [updChild]

theorem updChild_children_of_ne (s : State) (c : Nat) (f : ChildRec → ChildRec)
    (r : Nat) (h : r ≠ c) : (updChild s c f).children r = s.children r := by
  simp [updChild, h]

@[simp] theorem updChild_parents (s : State) (c : Nat) (f : ChildRec → ChildRec) :
    (updChild s c f).parents = s.parents := rfl

@[simp] theorem updChild_parentColl (s : State) (c : Nat) (f : ChildRec → ChildRec) :
    (updChild s c f).parentColl = s.parentColl := rfl

@[simp] theorem updChild_fkIndex (s : State) (c : Nat) (f : ChildRec → ChildRec) :
    (updChild s c f).fkIndex = s.fkIndex := rfl

@[simp] theorem updParent_parents_self (s : State) (p : Nat) (f : ParentRec → ParentRec) :
    (updParent s p f).parents p = f (s.parents p) := by
  simp [updParent]

theorem updParent_parents_of_ne (s : State) (p : Nat) (f : ParentRec → ParentRec)
    (r : Nat) (h : r ≠ p) : (updParent s p f).parents r = s.parents r := by
  simp [updParent, h]

@[simp] theorem updParent_children (s : State) (p : Nat) (f : ParentRec → ParentRec) :
    (updParent s p f).children = s.children := rfl

@[simp] theorem updParent_parentColl (s : State) (p : Nat) (f : ParentRec → ParentRec) :
    (updParent s p f).parentColl = s.parentColl := rfl

@[simp] theorem updParent_fkIndex (s : State) (p : Nat) (f : ParentRec → ParentRec) :
    (updParent s p f).fkIndex = s.fkIndex := rfl

@[simp] theorem updateIndex_children (s : State) (c : Nat) :
    (updateIndex s c).children = s.children := rfl

@[simp] theorem updateIndex_parents (s : State) (c : Nat) :
    (updateIndex s c).parents = s.parents := rfl

@[simp] theorem updateIndex_parentColl (s : State) (c : Nat) :
    (updateIndex s c).parentColl = s.parentColl := rfl

/-- `removeInverseRelation` touches only the parent `cp`, and even there
only the inverse slot/collection: every parent's identifier is unchanged. -/
theorem removeInverse_parents_id (ik : IKind) (s : State) (cp c : Nat) (id : Option Nat)
    (r : Nat) : ((removeInverseRelation ik s cp c id).parents r).id = (s.parents r).id := by
  cases ik <;> by_cases h : r = cp <;>
    simp [removeInverseRelation, updParent, h, apply_ite ParentRec.id]

/-- `removeInverseRelation` leaves every parent other than `cp` unchanged. -/
theorem removeInverse_parents_of_ne (ik : IKind) (s : State) (cp c : Nat) (id : Option Nat)
    (r : Nat) (h : r ≠ cp) :
    (removeInverseRelation ik s cp c id).parents r = s.parents r := by
  cases ik <;> simp [removeInverseRelation, updParent_parents_of_ne _ _ _ _ h]

@[simp] theorem removeInverse_children (ik : IKind) (s : State) (cp c : Nat)
    (id : Option Nat) : (removeInverseRelation ik s cp c id).children = s.children := by
  cases ik <;> rfl

@[simp] theorem removeInverse_parentColl (ik : IKind) (s : State) (cp c : Nat)
    (id : Option Nat) : (removeInverseRelation ik s cp c id).parentColl = s.parentColl := by
  cases ik <;> rfl

@[simp] theorem removeInverse_fkIndex (ik : IKind) (s : State) (cp c : Nat)
    (id : Option Nat) : (removeInverseRelation ik s cp c id).fkIndex = s.fkIndex := by
  cases ik <;> rfl

@[simp] theorem setupInverse_children (ik : IKind) (s : State) (np c : Nat) :
    (setupInverseRelation ik s np c).children = s.children := by
  cases ik <;> rfl

@[simp] theorem setupInverse_parentColl (ik : IKind) (s : State) (np c : Nat) :
    (setupInverseRelation ik s np c).parentColl = s.parentColl := by
  cases ik <;> rfl

@[simp] theorem setupInverse_fkIndex (ik : IKind) (s : State) (np c : Nat) :
    (setupInverseRelation ik s np c).fkIndex = s.fkIndex := by
  cases ik <;> rfl

theorem setupInverse_parents_of_ne (ik : IKind) (s : State) (np c : Nat)
    (r : Nat) (h : r ≠ np) :
    (setupInverseRelation ik s np c).parents r = s.parents r := by
  cases ik <;> simp [setupInverseRelation, updParent_parents_of_ne _ _ _ _ h]

/-- `storeGetParent` depends only on the parent identifiers and the Parent
Collection membership list, both of which `removeInverseRelation` preserves. -/
theorem storeGetParent_removeInverse (ik : IKind) (s : State) (cp c : Nat)
    (id : Option Nat) (v : Nat) :
    storeGetParent (removeInverseRelation ik s cp c id) v = storeGetParent s v := by
  unfold storeGetParent
  rw [removeInverse_parentColl]
  congr 1
  funext r
  rw [removeInverse_parents_id]

/-- `belongsToTeardown` preserves the child heap. -/
theorem teardown_children (inv : Option IKind) (s : State) (c : Nat) :
    (belongsToTeardown inv s c).children = s.children := by
  unfold belongsToTeardown
  rcases h : (s.children c).link with _ | cp <;> rcases inv with _ | ik <;> simp

/-- `belongsToTeardown` preserves every parent identifier. -/
theorem teardown_parents_id (inv : Option IKind) (s : State) (c r : Nat) :
    ((belongsToTeardown inv s c).parents r).id = (s.parents r).id := by
  unfold belongsToTeardown
  rcases h : (s.children c).link with _ | cp <;> rcases inv with _ | ik <;>
    simp [removeInverse_parents_id]

/-- `belongsToTeardown` preserves the index and the collection lists. -/
theorem teardown_fkIndex (inv : Option IKind) (s : State) (c : Nat) :
    (belongsToTeardown inv s c).fkIndex = s.fkIndex := by
  unfold belongsToTeardown
  rcases h : (s.children c).link with _ | cp <;> rcases inv with _ | ik <;> simp

theorem teardown_parentColl (inv : Option IKind) (s : State) (c : Nat) :
    (belongsToTeardown inv s c).parentColl = s.parentColl := by
  unfold belongsToTeardown
  rcases h : (s.children c).link with _ | cp <;> rcases inv with _ | ik <;> simp

theorem storeGetParent_teardown (inv : Option IKind) (s : State) (c v : Nat) :
    storeGetParent (belongsToTeardown inv s c) v = storeGetParent s v := by
  unfold belongsToTeardown
  rcases h : (s.children c).link with _ | cp <;> rcases inv with _ | ik <;>
    simp [storeGetParent_removeInverse]

/-- C7: invoking the child-creation operation of a BelongsTo relation
raises an error (the misuse message of `BelongsTo.js`) in every state and
never yields a successor state, so no record, collection or index is
mutated. -/
theorem belongsTo_createChildRecord_errors :
    ∀ s : State, createChildRecord s = Except.error belongsToChildErrorMsg :=
  fun _ => rfl

/-- C10: a DataStore constructed without an explicit `unlinkOnDestroy`
option gets the default `true`, so `destroy` and `destroyAll` perform the
post-destroy unlink pass by default, while `unlinkOnDestroy: false`
suppresses the pass entirely for both operations. -/
theorem unlinkOnDestroy_default_and_suppression :
    (mkDataStore none).unlinkOnDestroy = DATASTORE_DEFAULTS_unlinkOnDestroy ∧
    (mkDataStore none).unlinkOnDestroy = true ∧
    (mkDataStore (some false)).unlinkOnDestroy = false ∧
    (∀ inv s c, destroyUnlinkChild inv (mkDataStore none).unlinkOnDestroy s c =
        (belongsToSetLink inv s c none).1) ∧
    (∀ h s p, destroyUnlinkParentHasOne h (mkDataStore none).unlinkOnDestroy s p =
        (hasOneSetLink h s p none).map Prod.fst) ∧
    (∀ inv s c cs, destroyAllUnlinkChild inv (mkDataStore none).unlinkOnDestroy s (c :: cs) =
        (c :: cs).foldl (fun t c' => (belongsToSetLink inv t c' none).1) s) ∧
    (∀ inv s c, destroyUnlinkChild inv (mkDataStore (some false)).unlinkOnDestroy s c = s) ∧
    (∀ h s p, destroyUnlinkParentHasOne h (mkDataStore (some false)).unlinkOnDestroy s p =
        Except.ok s) ∧
    (∀ inv s cs, destroyAllUnlinkChild inv (mkDataStore (some false)).unlinkOnDestroy s cs = s) := by
  refine ⟨rfl, rfl, rfl, fun inv s c => rfl, fun h s p => rfl, ?_, fun inv s c => rfl,
    fun h s p => rfl, fun inv s cs => ?_⟩
  · intro inv s c cs
    simp [destroyAllUnlinkChild, mkDataStore, DATASTORE_DEFAULTS_unlinkOnDestroy]
  · simp [destroyAllUnlinkChild, mkDataStore, DATASTORE_DEFAULTS_unlinkOnDestroy]

/-- C9: evaluating the setters on concrete one-sided relations — the
HasOne link-field setter fails (the unguarded
`def.getInverse(mapper).localField` dereference) as soon as the assigned
record differs from the current one, although the spec promises that
one-sided relations perform local bookkeeping only; the BelongsTo
link-field setter, by contrast, completes and performs only local-side
bookkeeping (link, foreign key, index; no parent record is touched). -/
theorem hasOne_setter_one_sided_throws :
    hasOneSetLink false stateFresh 0 (some 0) = Except.error () ∧
    (stateFresh.parents 0).slot = none ∧
    ((belongsToSetLink none stateFresh 0 (some 1)).1.children 0 =
      ⟨some 10, some 2, some 1, true⟩) ∧
    ((belongsToSetLink none stateFresh 0 (some 1)).1.parents 1 = stateFresh.parents 1) ∧
    ((belongsToSetLink none stateFresh 0 (some 1)).1.parents 0 = stateFresh.parents 0) := by
  refine ⟨rfl, rfl, by decide, by decide, by decide⟩

/-- C8: for the augmentation of a record type with its link fields —
a relation whose kind is absent from the relation-kind registry makes
`defineMapper` fail with the configuration error, while a relation whose
registered kind-lookup produces no descriptor is silently skipped: the
operation succeeds and no link field is installed for that relation's
local field. -/
theorem defineMapper_unregistered_error_and_silent_skip
    (registry : Registry) (defs : List RelDef) (d : RelDef) (hd : d ∈ defs) :
    (registry.find? (fun kv => decide (kv.1 = d.rtype)) = none →
      defineMapperModel registry defs = Except.error unknownRelationKindMsg) ∧
    (∀ impl, registry.find? (fun kv => decide (kv.1 = d.rtype)) = some impl →
      impl.2 d = none →
      (∀ d' ∈ defs, (registry.find? (fun kv => decide (kv.1 = d'.rtype))).isSome) →
      (∀ d' ∈ defs, d'.localField = d.localField → d' = d) →
      defineMapperModel registry defs = Except.ok (installLinkFields registry defs) ∧
        d.localField ∉ installLinkFields registry defs) := by
  constructor
  · intro hnone
    unfold defineMapperModel
    rw [if_neg]
    intro hall
    rw [List.all_eq_true] at hall
    have h := hall d hd
    rw [hnone] at h
    exact Bool.false_ne_true h
  · intro impl hfind hnone hall huniq
    constructor
    · unfold defineMapperModel
      rw [if_pos]
      rw [List.all_eq_true]
      exact hall
    · intro hmem
      unfold installLinkFields at hmem
      rw [List.mem_filterMap] at hmem
      obtain ⟨a, ha, hfa⟩ := hmem
      rcases hfind' : List.find? (fun kv => decide (kv.1 = a.rtype)) registry with _ | kv
      · rw [hfind'] at hfa
        exact Option.noConfusion hfa
      · rw [hfind'] at hfa
        rw [Option.map_eq_some'] at hfa
        obtain ⟨u, hu, hloc⟩ := hfa
        have haeq : a = d := huniq a ha hloc
        subst haeq
        rw [hfind'] at hfind
        cases hfind
        rw [hnone] at hu
        exact Option.noConfusion hu

/-- C8 witness: a registry holding only `belongsTo` (whose
`createDescriptor` yields no descriptor); a mapper with a relation of the
unregistered kind `weird` fails with the configuration error, while a
mapper with the registered `belongsTo` relation succeeds and installs no
link field. -/
theorem defineMapper_unregistered_error_and_silent_skip_witness :
    defineMapperModel [("belongsTo", fun _ => none)] [⟨"weird", "x"⟩] =
      Except.error unknownRelationKindMsg ∧
    (defineMapperModel [("belongsTo", fun _ => none)] [⟨"belongsTo", "post"⟩] =
        Except.ok [] ∧
      "post" ∉ installLinkFields [("belongsTo", fun _ => none)] [⟨"belongsTo", "post"⟩]) := by
  refine ⟨?_, ?_, ?_⟩
  · exact (defineMapper_unregistered_error_and_silent_skip
      [("belongsTo", fun _ => none)] [⟨"weird", "x"⟩] ⟨"weird", "x"⟩ (by simp)).1 rfl
  · exact ((defineMapper_unregistered_error_and_silent_skip
      [("belongsTo", fun _ => none)] [⟨"belongsTo", "post"⟩] ⟨"belongsTo", "post"⟩
      (by simp)).2 ("belongsTo", fun _ => none) rfl rfl
      (by intro d' hd'; simp at hd'; subst hd'; exact rfl)
      (by intro d' hd' _; simpa using hd')).1
  · exact ((defineMapper_unregistered_error_and_silent_skip
      [("belongsTo", fun _ => none)] [⟨"belongsTo", "post"⟩] ⟨"belongsTo", "post"⟩
      (by simp)).2 ("belongsTo", fun _ => none) rfl rfl
      (by intro d' hd'; simp at hd'; subst hd'; exact rfl)
      (by intro d' hd' _; simpa using hd')).2

/-- C1 counterexample: from a state satisfying the cross-entity invariant
(stored Child 0 consistently linked to stored Parent 1, HasMany inverse),
a complete run of the foreign-key setter with value 2 — an identifier with
no loaded Parent — leaves the link field pointing at Parent 1 while the
foreign key holds 2, so at the resulting quiescent point `Child.L` is
defined but `Child.FK ≠ Child.L.ID`: the invariant is broken. -/
theorem belongsTo_invariant_cex :
    invariantB (some IKind.hasMany) stateLinked [0] [1, 2] = true ∧
    storeGetParent stateLinked 2 = none ∧
    ((belongsToSetFK (some IKind.hasMany) stateLinked 0 (some 2)).children 0).link = some 1 ∧
    ((belongsToSetFK (some IKind.hasMany) stateLinked 0 (some 2)).children 0).fk = some 2 ∧
    (stateLinked.parents 1).id = some 1 ∧
    invariantB (some IKind.hasMany) (belongsToSetFK (some IKind.hasMany) stateLinked 0 (some 2))
      [0] [1, 2] = false := by
  decide

/-- C2 counterexample: Parent 1 (id 1) is present in its Collection, yet
running the link-field setter `setLink(C, P)` on stored Child 0 — whose
link already points at Parent 1 while its foreign key is stale (2) — hits
the identity no-op branch and leaves `C.FK = 2 ≠ 1 = P.ID`. -/
theorem belongsTo_roundTrip_cex :
    storeGetParent stateStale 1 = some 1 ∧
    (stateStale.parents 1).id = some 1 ∧
    ((belongsToSetLink (some IKind.hasMany) stateStale 0 (some 1)).1.children 0).fk = some 2 := by
  decide

/-- C3 counterexample: from the same stale-but-reachable state
(Child 0 linked to stored Parent 1 with foreign key 2), `setLink(C, P)`
no-ops and leaves `C.FK = 2`, while `setForeignKey(C, P.ID)` rewrites the
foreign key to 1 — the two entry points reach observably different
states. -/
theorem belongsTo_symmetry_cex :
    storeGetParent stateStale 1 = some 1 ∧
    ((belongsToSetLink (some IKind.hasMany) stateStale 0 (some 1)).1.children 0).fk = some 2 ∧
    ((belongsToSetFK (some IKind.hasMany) stateStale 0 (some 1)).children 0).fk = some 1 := by
  decide

/-- C5 counterexample: detached Parent 3 shares identifier 5 with stored
Parent 1; when Child 0 is itself detached (`_get('$')` falsy), `setLink`
skips the store lookup and leaves the link pointing at the detached
object 3, not the stored instance 1; likewise, when the child's link
already points at the detached object, the identity no-op keeps it. -/
theorem belongsTo_canonicalization_cex :
    storeGetParent stateDetachedChild 5 = some 1 ∧
    (stateDetachedChild.parents 3).id = some 5 ∧
    (stateDetachedChild.children 0).inStore = false ∧
    ((belongsToSetLink (some IKind.hasOne) stateDetachedChild 0 (some 3)).1.children 0).link =
      some 3 ∧
    storeGetParent stateLinkedDetached 5 = some 1 ∧
    ((belongsToSetLink (some IKind.hasOne) stateLinkedDetached 0 (some 3)).1.children 0).link =
      some 3 := by
  decide

/-- C6 counterexample: destroying Parent 0 — linked to Child 0 through a
HasOne relation — with unlink-on-destroy enabled runs the unlink pass
through the full HasOne setter, which clears the *child's* foreign-key and
link fields: a record other than the destroyed one is mutated, contrary
to the claimed frame condition. -/
theorem destroy_unlink_frame_cex :
    (stateHasOneLinked.children 0).fk = some 1 ∧
    (stateHasOneLinked.children 0).link = some 0 ∧
    (destroyUnlinkParentHasOne true true stateHasOneLinked 0).toOption.map
        (fun t => t.children 0) = some ⟨some 10, none, none, true⟩ := by
  decide

theorem setupInverse_parents_id (ik : IKind) (s : State) (np c : Nat) (r : Nat) :
    ((setupInverseRelation ik s np c).parents r).id = (s.parents r).id := by
  cases ik <;> by_cases h : r = np <;>
    simp [setupInverseRelation, updParent, h, apply_ite ParentRec.id]

/-- The attach phase always ends with the child's link pointing at the
resolved parent and the child's foreign key holding the identifier read
from the record passed in. -/
theorem attach_children_self (inv : Option IKind) (s : State) (c : Nat) (p0 : Nat) :
    (belongsToAttach inv s c p0).1.children c =
      { s.children c with
          link := (belongsToAttach inv s c p0).2,
          fk := (s.parents p0).id } := by
  unfold belongsToAttach
  rcases inv with _ | ik
  · simp
  · simp

/-- The attach phase resolves to the canonical stored parent when the
related identifier is defined, the child is stored, and the store holds a
record with that identifier. -/
theorem attach_resolves (inv : Option IKind) (s : State) (c : Nat) (p0 P v : Nat)
    (hid : (s.parents p0).id = some v)
    (hP : storeGetParent s v = some P) :
    (belongsToAttach inv s c p0).2 = some (if (s.children c).inStore then P else p0) := by
  unfold belongsToAttach
  rcases hin : (s.children c).inStore with _ | _ <;> rcases inv with _ | ik <;>
    simp [hid, hin, hP]

/-- The attach phase never changes any parent's identifier. -/
theorem attach_parents_id (inv : Option IKind) (s : State) (c : Nat) (p0 : Nat) (r : Nat) :
    ((belongsToAttach inv s c p0).1.parents r).id = (s.parents r).id := by
  unfold belongsToAttach
  rcases inv with _ | ik
  · simp
  · simp [setupInverse_parents_id]

/-- C5 (amended): for a Child present in its Collection whose link field
does not already point at the assigned object, linking to a (possibly
detached) parent object whose identifier matches a stored Parent ends
with the link field pointing at the stored instance. -/
theorem belongsTo_canonicalization (inv : Option IKind) (s : State) (c d v P : Nat)
    (hin : (s.children c).inStore = true)
    (hid : (s.parents d).id = some v)
    (hstore : storeGetParent s v = some P)
    (hne : (s.children c).link ≠ some d) :
    ((belongsToSetLink inv s c (some d)).1.children c).link = some P ∧
    (belongsToSetLink inv s c (some d)).2 = some P := by
  have hcond : ¬ (some d = (s.children c).link) := fun h => hne h.symm
  have h1 : belongsToSetLink inv s c (some d) =
      belongsToAttach inv (belongsToTeardown inv s c) c d := by
    unfold belongsToSetLink
    rw [if_neg hcond]
  have hid' : ((belongsToTeardown inv s c).parents d).id = some v := by
    rw [teardown_parents_id]; exact hid
  have hstore' : storeGetParent (belongsToTeardown inv s c) v = some P := by
    rw [storeGetParent_teardown]; exact hstore
  have hin' : ((belongsToTeardown inv s c).children c).inStore = true := by
    rw [teardown_children]; exact hin
  have hres := attach_resolves inv (belongsToTeardown inv s c) c d P v hid' hstore'
  rw [hin'] at hres
  simp only [if_true] at hres
  constructor
  · rw [h1, attach_children_self, hres]
  · rw [h1, hres]

/-- C5 witness state: stored Child 0 (id 10), stored Parent 1 (id 5) and
detached Parent 3 sharing id 5; the child is not yet linked. -/
def stateDetachedParent : State where
  children := fun r => if r = 0 then ⟨some 10, none, none, true⟩ else defaultChild
  parents := fun r =>
    if r = 1 then ⟨some 5, none, []⟩
    else if r = 3 then ⟨some 5, none, []⟩
    else defaultParent
  parentColl := [1]
  childColl := [0]
  fkIndex := fun _ => []

/-- C5 witness: linking stored Child 0 to detached Parent 3 (id 5) ends
with the link pointing at stored Parent 1. -/
theorem belongsTo_canonicalization_witness :
    ((belongsToSetLink (some IKind.hasOne) stateDetachedParent 0 (some 3)).1.children 0).link =
      some 1 ∧
    (belongsToSetLink (some IKind.hasOne) stateDetachedParent 0 (some 3)).2 = some 1 :=
  belongsTo_canonicalization (some IKind.hasOne) stateDetachedParent 0 3 5 1
    rfl rfl rfl (by decide)

/-- C2 (amended): for a Parent canonically present in its Collection
under identifier v and any Child whose foreign key already agrees
whenever its link already points at that Parent, running the link-field
setter and then reading the link field yields the Parent (hence a record
equal to it by identifier), and the foreign key equals the Parent's
identifier. -/
theorem belongsTo_roundTrip (inv : Option IKind) (s : State) (c P v : Nat)
    (hid : (s.parents P).id = some v)
    (hstore : storeGetParent s v = some P)
    (hprov : (s.children c).link = some P → (s.children c).fk = some v) :
    ((belongsToSetLink inv s c (some P)).1.children c).link = some P ∧
    ((belongsToSetLink inv s c (some P)).1.children c).fk = some v ∧
    ((belongsToSetLink inv s c (some P)).1.parents P).id = some v ∧
    (belongsToSetLink inv s c (some P)).2 = some P := by
  by_cases h : some P = (s.children c).link
  · have hnoop : belongsToSetLink inv s c (some P) = (s, some P) := by
      unfold belongsToSetLink
      rw [if_pos h]
    rw [hnoop]
    exact ⟨h.symm, hprov h.symm, hid, rfl⟩
  · have h1 : belongsToSetLink inv s c (some P) =
        belongsToAttach inv (belongsToTeardown inv s c) c P := by
      unfold belongsToSetLink
      rw [if_neg h]
    have hid' : ((belongsToTeardown inv s c).parents P).id = some v := by
      rw [teardown_parents_id]; exact hid
    have hstore' : storeGetParent (belongsToTeardown inv s c) v = some P := by
      rw [storeGetParent_teardown]; exact hstore
    have hres := attach_resolves inv (belongsToTeardown inv s c) c P P v hid' hstore'
    have hres' : (belongsToAttach inv (belongsToTeardown inv s c) c P).2 = some P := by
      rw [hres]
      rcases ((belongsToTeardown inv s c).children c).inStore <;> simp
    refine ⟨?_, ?_, ?_, ?_⟩
    · rw [h1, attach_children_self, hres']
    · rw [h1, attach_children_self]
      exact hid'
    · rw [h1, attach_parents_id, teardown_parents_id]
      exact hid
    · rw [h1, hres']

/-- C2 witness: linking fresh stored Child 0 to stored Parent 1 (id 2) in
`stateFresh` yields link = Parent 1, foreign key = 2. -/
theorem belongsTo_roundTrip_witness :
    ((belongsToSetLink (some IKind.hasMany) stateFresh 0 (some 1)).1.children 0).link = some 1 ∧
    ((belongsToSetLink (some IKind.hasMany) stateFresh 0 (some 1)).1.children 0).fk = some 2 ∧
    ((belongsToSetLink (some IKind.hasMany) stateFresh 0 (some 1)).1.parents 1).id = some 2 ∧
    (belongsToSetLink (some IKind.hasMany) stateFresh 0 (some 1)).2 = some 1 :=
  belongsTo_roundTrip (some IKind.hasMany) stateFresh 0 1 2 rfl rfl (by decide)

/-- After `removeInverseRelation`, the torn-down parent's inverse
slot/collection holds no occurrence of the child. -/
theorem removeInverse_count_zero (ik : IKind) (s : State) (cp c : Nat) (id : Option Nat) :
    inverseCount ik ((removeInverseRelation ik s cp c id).parents cp) c = 0 := by
  cases ik
  · by_cases h : (s.parents cp).slot = some c <;>
      simp [removeInverseRelation, inverseCount, updParent, h]
  · simp only [removeInverseRelation, inverseCount, updParent_parents_self]
    rw [List.count_eq_zero]
    intro hmem
    by_cases hid : id = none
    · rw [if_pos hid] at hmem
      have := List.of_mem_filter hmem
      simp at this
    · rw [if_neg hid] at hmem
      have := List.of_mem_filter hmem
      simp at this

/-- After `setupInverseRelation` on a parent that did not hold the child,
the parent's inverse slot/collection holds the child exactly once. -/
theorem setup_count_one (ik : IKind) (s : State) (np c : Nat)
    (h : inverseCount ik (s.parents np) c = 0) :
    inverseCount ik ((setupInverseRelation ik s np c).parents np) c = 1 := by
  cases ik
  · simp [setupInverseRelation, inverseCount, updParent]
  · simp only [inverseCount] at h
    have hnot : c ∉ (s.parents np).many := by
      rw [← List.count_eq_zero]
      exact h
    simp [setupInverseRelation, inverseCount, updParent, hnot, h]

/-- When the record passed in is itself the canonical stored parent for
its identifier, the attach phase's parent mutations are exactly
`setupInverseRelation` on that parent. -/
theorem attach_parents_canonical (ik : IKind) (s : State) (c p0 v : Nat) (r : Nat)
    (hid : (s.parents p0).id = some v)
    (hP : storeGetParent s v = some p0) :
    (belongsToAttach (some ik) s c p0).1.parents r =
      (setupInverseRelation ik s p0 c).parents r := by
  unfold belongsToAttach
  rcases hin : (s.children c).inStore with _ | _ <;> cases ik <;>
    simp [hid, hin, hP, setupInverseRelation, updParent, updateIndex, updChild]

/-- C4: reassigning a Child consistently linked to Parent P1 onto a
different canonical stored Parent P2 first tears the child out of P1's
inverse slot/collection — at the intermediate teardown state the child
occurs in neither parent's inverse — and ends with zero occurrences in
P1 and exactly one occurrence in P2 (no duplicate, no leak). -/
theorem belongsTo_teardown_before_attach (ik : IKind) (s : State) (c p1 p2 v : Nat)
    (hlink : (s.children c).link = some p1)
    (hne : p1 ≠ p2)
    (hid2 : (s.parents p2).id = some v)
    (hstore : storeGetParent s v = some p2)
    (habs : inverseCount ik (s.parents p2) c = 0) :
    inverseCount ik ((belongsToTeardown (some ik) s c).parents p1) c = 0 ∧
    inverseCount ik ((belongsToTeardown (some ik) s c).parents p2) c = 0 ∧
    inverseCount ik ((belongsToSetLink (some ik) s c (some p2)).1.parents p1) c = 0 ∧
    inverseCount ik ((belongsToSetLink (some ik) s c (some p2)).1.parents p2) c = 1 := by
  have hT : belongsToTeardown (some ik) s c =
      removeInverseRelation ik s p1 c (s.children c).id := by
    unfold belongsToTeardown
    rw [hlink]
  have part1 : inverseCount ik ((belongsToTeardown (some ik) s c).parents p1) c = 0 := by
    rw [hT]
    exact removeInverse_count_zero ik s p1 c (s.children c).id
  have hp2T : (belongsToTeardown (some ik) s c).parents p2 = s.parents p2 := by
    rw [hT]
    exact removeInverse_parents_of_ne ik s p1 c (s.children c).id p2 (Ne.symm hne)
  have part2 : inverseCount ik ((belongsToTeardown (some ik) s c).parents p2) c = 0 := by
    rw [hp2T]
    exact habs
  have hcond : ¬ (some p2 = (s.children c).link) := by
    rw [hlink]
    intro h
    exact hne (Option.some.inj h).symm
  have h1 : belongsToSetLink (some ik) s c (some p2) =
      belongsToAttach (some ik) (belongsToTeardown (some ik) s c) c p2 := by
    unfold belongsToSetLink
    rw [if_neg hcond]
  have hid2' : ((belongsToTeardown (some ik) s c).parents p2).id = some v := by
    rw [teardown_parents_id]
    exact hid2
  have hstore2' : storeGetParent (belongsToTeardown (some ik) s c) v = some p2 := by
    rw [storeGetParent_teardown]
    exact hstore
  refine ⟨part1, part2, ?_, ?_⟩
  · rw [h1, attach_parents_canonical ik _ c p2 v p1 hid2' hstore2',
      setupInverse_parents_of_ne ik _ p2 c p1 hne]
    exact part1
  · rw [h1, attach_parents_canonical ik _ c p2 v p2 hid2' hstore2']
    exact setup_count_one ik _ p2 c part2

/-- C4 witness state: stored Child 0 consistently linked to stored
Parent 1; stored Parent 2 (id 2) is the reassignment target. -/
def stateTwoParents : State where
  children := fun r => if r = 0 then ⟨some 10, some 1, some 1, true⟩ else defaultChild
  parents := fun r =>
    if r = 1 then ⟨some 1, none, [0]⟩
    else if r = 2 then ⟨some 2, none, []⟩
    else defaultParent
  parentColl := [1, 2]
  childColl := [0]
  fkIndex := fun k => if k = some 1 then [0] else []

/-- C4 witness: reassigning Child 0 from Parent 1 to Parent 2 in
`stateTwoParents` with a HasMany inverse. -/
theorem belongsTo_teardown_before_attach_witness :
    inverseCount IKind.hasMany
      ((belongsToTeardown (some IKind.hasMany) stateTwoParents 0).parents 1) 0 = 0 ∧
    inverseCount IKind.hasMany
      ((belongsToTeardown (some IKind.hasMany) stateTwoParents 0).parents 2) 0 = 0 ∧
    inverseCount IKind.hasMany
      ((belongsToSetLink (some IKind.hasMany) stateTwoParents 0 (some 2)).1.parents 1) 0 = 0 ∧
    inverseCount IKind.hasMany
      ((belongsToSetLink (some IKind.hasMany) stateTwoParents 0 (some 2)).1.parents 2) 0 = 1 :=
  belongsTo_teardown_before_attach IKind.hasMany stateTwoParents 0 1 2 2
    rfl (by decide) rfl rfl (by decide)

/-- C6 (amended): the destroy-unlink pass on a Child-type record sets the
destroyed record's own link field to undefined and keeps its own foreign
key; every other Child record is untouched, every Parent the record was
not linked to is untouched, and the index is untouched — but, because the
pass runs through the full link-field setter, the linked parent's inverse
slot/collection does get the teardown (see the counterexample for the
HasOne side).  With the flag off the pass does nothing. -/
theorem destroy_unlink_frame (inv : Option IKind) (s : State) (c : Nat) :
    ((destroyUnlinkChild inv true s c).children c).link = none ∧
    ((destroyUnlinkChild inv true s c).children c).fk = (s.children c).fk ∧
    (∀ r, r ≠ c → (destroyUnlinkChild inv true s c).children r = s.children r) ∧
    (∀ pr, (s.children c).link ≠ some pr →
      (destroyUnlinkChild inv true s c).parents pr = s.parents pr) ∧
    (destroyUnlinkChild inv true s c).fkIndex = s.fkIndex ∧
    destroyUnlinkChild inv false s c = s := by
  have hd : destroyUnlinkChild inv true s c = (belongsToSetLink inv s c none).1 := rfl
  rcases hl : (s.children c).link with _ | cp
  · have hnoop : belongsToSetLink inv s c none = (s, none) := by
      unfold belongsToSetLink
      rw [if_pos (by rw [hl])]
    rw [hd, hnoop]
    exact ⟨hl, rfl, fun r _ => rfl, fun pr _ => rfl, rfl, rfl⟩
  · have hres : belongsToSetLink inv s c none =
        (updChild (belongsToTeardown inv s c) c (fun ch => { ch with link := none }), none) := by
      unfold belongsToSetLink
      rw [if_neg (by rw [hl]; exact fun h => Option.noConfusion h)]
    rw [hd, hres]
    refine ⟨?_, ?_, ?_, ?_, ?_, rfl⟩
    · simp
    · simp [teardown_children]
    · intro r hr
      rw [updChild_children_of_ne _ _ _ _ hr, teardown_children]
    · intro pr hpr
      have hprcp : pr ≠ cp := by
        intro heq
        apply hpr
        rw [heq]
      show (belongsToTeardown inv s c).parents pr = s.parents pr
      unfold belongsToTeardown
      rw [hl]
      rcases inv with _ | ik
      · rfl
      · exact removeInverse_parents_of_ne ik s cp c (s.children c).id pr hprcp
    · rw [updChild_fkIndex, teardown_fkIndex]

/-- C6 witness: destroying Child 0 (linked to Parent 1) in `stateLinked`
clears its link, keeps its foreign key, and leaves Child 5 and the
never-linked Parent 2 untouched; with the flag off nothing changes. -/
theorem destroy_unlink_frame_witness :
    ((destroyUnlinkChild (some IKind.hasMany) true stateLinked 0).children 0).link = none ∧
    ((destroyUnlinkChild (some IKind.hasMany) true stateLinked 0).children 0).fk = some 1 ∧
    (destroyUnlinkChild (some IKind.hasMany) true stateLinked 0).children 5 =
      stateLinked.children 5 ∧
    (destroyUnlinkChild (some IKind.hasMany) true stateLinked 0).parents 2 =
      stateLinked.parents 2 ∧
    destroyUnlinkChild (some IKind.hasMany) false stateLinked 0 = stateLinked := by
  refine ⟨(destroy_unlink_frame (some IKind.hasMany) stateLinked 0).1,
    (destroy_unlink_frame (some IKind.hasMany) stateLinked 0).2.1,
    (destroy_unlink_frame (some IKind.hasMany) stateLinked 0).2.2.1 5 (by decide),
    (destroy_unlink_frame (some IKind.hasMany) stateLinked 0).2.2.2.1 2 (by decide),
    (destroy_unlink_frame (some IKind.hasMany) stateLinked 0).2.2.2.2.2⟩


@[simp] theorem fkInlineRemove_children (ik : IKind) (s : State) (cp c : Nat) :
    (fkInlineRemove ik s cp c).children = s.children := by
  cases ik <;> rfl

@[simp] theorem fkInlineRemove_fkIndex (ik : IKind) (s : State) (cp c : Nat) :
    (fkInlineRemove ik s cp c).fkIndex = s.fkIndex := by
  cases ik <;> rfl

@[simp] theorem fkInlineRemove_parentColl (ik : IKind) (s : State) (cp c : Nat) :
    (fkInlineRemove ik s cp c).parentColl = s.parentColl := by
  cases ik <;> rfl

theorem fkInlineRemove_parents_id (ik : IKind) (s : State) (cp c : Nat) (r : Nat) :
    ((fkInlineRemove ik s cp c).parents r).id = (s.parents r).id := by
  cases ik <;> by_cases hr : r = cp <;>
    simp [fkInlineRemove, updParent, hr]

theorem fkTeardown_children (inv : Option IKind) (s : State) (c : Nat) (value : Option Nat) :
    (belongsToFKTeardown inv s c value).children = s.children := by
  unfold belongsToFKTeardown
  rcases inv with _ | ik
  · rfl
  · rcases hl : (s.children c).link with _ | cp
    · rfl
    · show (if currentParentIdOf s c ≠ none ∧ currentParentIdOf s c ≠ value then
          fkInlineRemove ik s cp c else s).children = s.children
      split
      · exact fkInlineRemove_children ik s cp c
      · rfl

theorem fkTeardown_parents_id (inv : Option IKind) (s : State) (c : Nat) (value : Option Nat)
    (r : Nat) : ((belongsToFKTeardown inv s c value).parents r).id = (s.parents r).id := by
  unfold belongsToFKTeardown
  rcases inv with _ | ik
  · rfl
  · rcases hl : (s.children c).link with _ | cp
    · rfl
    · show ((if currentParentIdOf s c ≠ none ∧ currentParentIdOf s c ≠ value then
          fkInlineRemove ik s cp c else s).parents r).id = (s.parents r).id
      split
      · exact fkInlineRemove_parents_id ik s cp c r
      · rfl

theorem fkTeardown_fkIndex (inv : Option IKind) (s : State) (c : Nat) (value : Option Nat) :
    (belongsToFKTeardown inv s c value).fkIndex = s.fkIndex := by
  unfold belongsToFKTeardown
  rcases inv with _ | ik
  · rfl
  · rcases hl : (s.children c).link with _ | cp
    · rfl
    · show (if currentParentIdOf s c ≠ none ∧ currentParentIdOf s c ≠ value then
          fkInlineRemove ik s cp c else s).fkIndex = s.fkIndex
      split
      · exact fkInlineRemove_fkIndex ik s cp c
      · rfl

theorem fkTeardown_parentColl (inv : Option IKind) (s : State) (c : Nat) (value : Option Nat) :
    (belongsToFKTeardown inv s c value).parentColl = s.parentColl := by
  unfold belongsToFKTeardown
  rcases inv with _ | ik
  · rfl
  · rcases hl : (s.children c).link with _ | cp
    · rfl
    · show (if currentParentIdOf s c ≠ none ∧ currentParentIdOf s c ≠ value then
          fkInlineRemove ik s cp c else s).parentColl = s.parentColl
      split
      · exact fkInlineRemove_parentColl ik s cp c
      · rfl

/-- `storeGetParent` is determined by the Parent Collection list and the
parent identifiers. -/
theorem storeGetParent_pointwise (s t : State) (v : Nat)
    (hcoll : t.parentColl = s.parentColl)
    (hids : ∀ r, (t.parents r).id = (s.parents r).id) :
    storeGetParent t v = storeGetParent s v := by
  unfold storeGetParent
  rw [hcoll]
  have hfun : (fun r => decide ((t.parents r).id = some v)) =
      (fun r => decide ((s.parents r).id = some v)) := by
    funext r
    rw [hids r]
  rw [hfun]

theorem filterc_idem (c : Nat) (l : List Nat) :
    (l.filter (fun r => decide (r ≠ c))).filter (fun r => decide (r ≠ c)) =
      l.filter (fun r => decide (r ≠ c)) := by
  induction l with
  | nil => rfl
  | cons a t ih => by_cases h : a = c <;> simp [List.filter, h, ih]

theorem filterc_append_c (c : Nat) (l : List Nat) :
    ((l.filter (fun r => decide (r ≠ c))) ++ [c]).filter (fun r => decide (r ≠ c)) =
      l.filter (fun r => decide (r ≠ c)) := by
  rw [List.filter_append, filterc_idem]
  simp

/-- The one-bucket formula for `updateIndex`. -/
theorem updateIndex_fkIndex (s : State) (c : Nat) (k : Option Nat) :
    (updateIndex s c).fkIndex k =
      if k = (s.children c).fk then
        ((s.fkIndex k).filter (fun r => decide (r ≠ c))) ++ [c]
      else (s.fkIndex k).filter (fun r => decide (r ≠ c)) := rfl

/-- Removing the inverse relation twice (with unchanged child identifiers
in between) is the same as removing it once. -/
theorem remove_stable (ik : IKind) (s t : State) (p1 c : Nat) (id : Option Nat)
    (hpar : ∀ r, t.parents r = (removeInverseRelation ik s p1 c id).parents r)
    (hch : ∀ r, (t.children r).id = (s.children r).id) (r : Nat) :
    (removeInverseRelation ik t p1 c id).parents r =
      (removeInverseRelation ik s p1 c id).parents r := by
  by_cases hr : r = p1
  · subst hr
    have h1 := hpar r
    cases ik
    · simp only [removeInverseRelation, updParent_parents_self] at h1 ⊢
      rw [h1]
      by_cases hs : (s.parents r).slot = some c
      · simp [hs]
      · simp [hs]
    · simp only [removeInverseRelation, updParent_parents_self] at h1 ⊢
      rw [h1]
      by_cases hid : id = none
      · simp [hid, filterc_idem]
      · have hfun : (fun x => decide (¬ (x = c ∨ (t.children x).id = id))) =
            (fun x => decide (¬ (x = c ∨ (s.children x).id = id))) := by
          funext x
          rw [hch x]
        simp only [hid, if_false, hfun]
        simp only [ParentRec.mk.injEq]
        refine ⟨trivial, trivial, ?_⟩
        rw [List.filter_filter]
        apply List.filter_congr
        intro a _
        rw [Bool.and_self]
  · rw [removeInverse_parents_of_ne ik t p1 c id r hr]
    exact hpar r

/-- `removeInverseRelation` respects pointwise equality of parents and of
child identifiers. -/
theorem remove_congr (ik : IKind) (s t : State) (p1 c : Nat) (id : Option Nat)
    (hpar : ∀ r, t.parents r = s.parents r)
    (hch : ∀ r, (t.children r).id = (s.children r).id) (r : Nat) :
    (removeInverseRelation ik t p1 c id).parents r =
      (removeInverseRelation ik s p1 c id).parents r := by
  by_cases hr : r = p1
  · subst hr
    have h1 := hpar r
    cases ik
    · simp only [removeInverseRelation, updParent_parents_self]
      rw [h1]
    · simp only [removeInverseRelation, updParent_parents_self]
      rw [h1]
      by_cases hid : id = none
      · simp [hid]
      · have hfun : (fun x => decide (¬ (x = c ∨ (t.children x).id = id))) =
            (fun x => decide (¬ (x = c ∨ (s.children x).id = id))) := by
          funext x
          rw [hch x]
        simp only [hid, if_false, hfun]
  · rw [removeInverse_parents_of_ne ik t p1 c id r hr,
      removeInverse_parents_of_ne ik s p1 c id r hr]
    exact hpar r

/-- `setupInverseRelation` respects pointwise equality of parents. -/
theorem setup_parents_pointwise (ik : IKind) (t t' : State) (np c : Nat)
    (h : ∀ r, t.parents r = t'.parents r) (r : Nat) :
    (setupInverseRelation ik t np c).parents r =
      (setupInverseRelation ik t' np c).parents r := by
  cases ik <;> by_cases hr : r = np <;>
    simp [setupInverseRelation, updParent, hr, h r, h np]

/-- Without an inverse, the attach phase leaves every parent unchanged. -/
theorem attach_parents_none (s : State) (c p0 : Nat) (r : Nat) :
    (belongsToAttach none s c p0).1.parents r = s.parents r := rfl

/-- The one-bucket formula for the attach phase's index update. -/
theorem attach_fkIndex (inv : Option IKind) (s : State) (c p0 : Nat) (k : Option Nat) :
    (belongsToAttach inv s c p0).1.fkIndex k =
      if k = (s.parents p0).id then
        ((s.fkIndex k).filter (fun r => decide (r ≠ c))) ++ [c]
      else (s.fkIndex k).filter (fun r => decide (r ≠ c)) := by
  unfold belongsToAttach
  rcases inv with _ | ik
  · simp [updateIndex, updChild]
  · cases ik <;> simp [updateIndex, updChild, setupInverseRelation, updParent]

theorem teardown_of_link_none (inv : Option IKind) (s : State) (c : Nat)
    (h : (s.children c).link = none) : belongsToTeardown inv s c = s := by
  unfold belongsToTeardown
  rw [h]

theorem teardown_none_inv (s : State) (c : Nat) : belongsToTeardown none s c = s := by
  unfold belongsToTeardown
  rcases hl : (s.children c).link with _ | cp <;> rfl

theorem teardown_some_some (ik : IKind) (s : State) (c cp : Nat)
    (h : (s.children c).link = some cp) :
    belongsToTeardown (some ik) s c = removeInverseRelation ik s cp c (s.children c).id := by
  unfold belongsToTeardown
  rw [h]

theorem fkTeardown_of_link_none (inv : Option IKind) (s : State) (c : Nat) (value : Option Nat)
    (h : (s.children c).link = none) : belongsToFKTeardown inv s c value = s := by
  unfold belongsToFKTeardown
  rcases inv with _ | ik
  · rfl
  · rw [h]

theorem fkTeardown_none_inv (s : State) (c : Nat) (value : Option Nat) :
    belongsToFKTeardown none s c value = s := rfl

theorem fkTeardown_guard_pos (ik : IKind) (s : State) (c cp : Nat) (value : Option Nat)
    (h : (s.children c).link = some cp)
    (hg : currentParentIdOf s c ≠ none ∧ currentParentIdOf s c ≠ value) :
    belongsToFKTeardown (some ik) s c value = fkInlineRemove ik s cp c := by
  unfold belongsToFKTeardown
  rw [h]
  show (if currentParentIdOf s c ≠ none ∧ currentParentIdOf s c ≠ value then
      fkInlineRemove ik s cp c else s) = fkInlineRemove ik s cp c
  rw [if_pos hg]

theorem fkTeardown_guard_neg (ik : IKind) (s : State) (c cp : Nat) (value : Option Nat)
    (h : (s.children c).link = some cp)
    (hg : ¬ (currentParentIdOf s c ≠ none ∧ currentParentIdOf s c ≠ value)) :
    belongsToFKTeardown (some ik) s c value = s := by
  unfold belongsToFKTeardown
  rw [h]
  show (if currentParentIdOf s c ≠ none ∧ currentParentIdOf s c ≠ value then
      fkInlineRemove ik s cp c else s) = s
  rw [if_neg hg]

theorem attach_children_of_ne (inv : Option IKind) (s : State) (c p0 : Nat) (r : Nat)
    (hr : r ≠ c) : (belongsToAttach inv s c p0).1.children r = s.children r := by
  unfold belongsToAttach
  rcases inv with _ | ik
  · simp [updateIndex, updChild, hr]
  · cases ik <;> simp [updateIndex, updChild, setupInverseRelation, updParent, hr]

/-- The inline FK-setter removal agrees with the spec-modelled
`removeInverseRelation` whenever a HasOne inverse slot actually holds the
child (for HasMany they coincide definitionally). -/
theorem fkInlineRemove_eq_remove (ik : IKind) (s : State) (cp c : Nat)
    (hslot : ik = IKind.hasOne → (s.parents cp).slot = some c) (r : Nat) :
    (fkInlineRemove ik s cp c).parents r =
      (removeInverseRelation ik s cp c (s.children c).id).parents r := by
  cases ik
  · by_cases hr : r = cp
    · subst hr
      simp [fkInlineRemove, removeInverseRelation, updParent, hslot rfl]
    · simp [fkInlineRemove, removeInverseRelation, updParent, hr]
  · rfl

/-- The state reached by the foreign-key setter just after the inline
teardown, the raw foreign-key write and the index update — right before
the optimistic link resolution. -/
def fkMid (inv : Option IKind) (s : State) (c : Nat) (v : Nat) : State :=
  updateIndex (updChild (belongsToFKTeardown inv s c (some v)) c
    (fun ch => { ch with fk := some v })) c

theorem fkMid_children_c (inv : Option IKind) (s : State) (c v : Nat) :
    (fkMid inv s c v).children c = { s.children c with fk := some v } := by
  show (updChild (belongsToFKTeardown inv s c (some v)) c
      (fun ch => { ch with fk := some v })).children c = _
  rw [updChild_children_self, fkTeardown_children]

theorem fkMid_children_ne (inv : Option IKind) (s : State) (c v : Nat) (r : Nat)
    (hr : r ≠ c) : (fkMid inv s c v).children r = s.children r := by
  show (updChild (belongsToFKTeardown inv s c (some v)) c
      (fun ch => { ch with fk := some v })).children r = _
  rw [updChild_children_of_ne _ _ _ _ hr, fkTeardown_children]

theorem fkMid_link (inv : Option IKind) (s : State) (c v : Nat) :
    ((fkMid inv s c v).children c).link = (s.children c).link := by
  rw [fkMid_children_c]

theorem fkMid_inStore (inv : Option IKind) (s : State) (c v : Nat) :
    ((fkMid inv s c v).children c).inStore = (s.children c).inStore := by
  rw [fkMid_children_c]

theorem fkMid_fk (inv : Option IKind) (s : State) (c v : Nat) :
    ((fkMid inv s c v).children c).fk = some v := by
  rw [fkMid_children_c]

theorem fkMid_children_id (inv : Option IKind) (s : State) (c v : Nat) (r : Nat) :
    ((fkMid inv s c v).children r).id = (s.children r).id := by
  by_cases hr : r = c
  · subst hr
    rw [fkMid_children_c]
  · rw [fkMid_children_ne _ _ _ _ _ hr]

theorem fkMid_parents (inv : Option IKind) (s : State) (c v : Nat) (r : Nat) :
    (fkMid inv s c v).parents r = (belongsToFKTeardown inv s c (some v)).parents r := rfl

theorem fkMid_parents_id (inv : Option IKind) (s : State) (c v : Nat) (r : Nat) :
    ((fkMid inv s c v).parents r).id = (s.parents r).id := by
  rw [fkMid_parents]
  exact fkTeardown_parents_id inv s c (some v) r

theorem fkMid_parentColl (inv : Option IKind) (s : State) (c v : Nat) :
    (fkMid inv s c v).parentColl = s.parentColl := by
  show (belongsToFKTeardown inv s c (some v)).parentColl = s.parentColl
  exact fkTeardown_parentColl inv s c (some v)

theorem fkMid_storeGet (inv : Option IKind) (s : State) (c v w : Nat) :
    storeGetParent (fkMid inv s c v) w = storeGetParent s w := by
  exact storeGetParent_pointwise s (fkMid inv s c v) w (fkMid_parentColl inv s c v)
    (fkMid_parents_id inv s c v)

theorem fkMid_fkIndex (inv : Option IKind) (s : State) (c v : Nat) (k : Option Nat) :
    (fkMid inv s c v).fkIndex k =
      if k = some v then
        ((s.fkIndex k).filter (fun r => decide (r ≠ c))) ++ [c]
      else (s.fkIndex k).filter (fun r => decide (r ≠ c)) := by
  unfold fkMid
  rw [updateIndex_fkIndex]
  have h1 : ((updChild (belongsToFKTeardown inv s c (some v)) c
      (fun ch => { ch with fk := some v })).children c).fk = some v := by
    rw [updChild_children_self]
  have h2 : (updChild (belongsToFKTeardown inv s c (some v)) c
      (fun ch => { ch with fk := some v })).fkIndex = s.fkIndex := by
    rw [updChild_fkIndex]
    exact fkTeardown_fkIndex inv s c (some v)
  rw [h1, h2]

/-- Reduction of the foreign-key setter at a defined value through the
midpoint state, when the child is stored and the store resolves the
value. -/
theorem setFK_some_eq (inv : Option IKind) (s : State) (c v : Nat)
    (hin3 : ((fkMid inv s c v).children c).inStore = true) (P : Nat)
    (hsg : storeGetParent (fkMid inv s c v) v = some P) :
    belongsToSetFK inv s c (some v) =
      (belongsToSetLink inv (fkMid inv s c v) c (some P)).1 := by
  show (if ((fkMid inv s c v).children c).inStore = true then
      (match storeGetParent (fkMid inv s c v) v with
       | some sr => (belongsToSetLink inv (fkMid inv s c v) c (some sr)).1
       | none => fkMid inv s c v)
    else fkMid inv s c v) = (belongsToSetLink inv (fkMid inv s c v) c (some P)).1
  rw [if_pos hin3, hsg]

theorem ChildRec_set_fk_self (ch : ChildRec) (v : Nat) (h : ch.fk = some v) :
    ({ ch with fk := some v } : ChildRec) = ch := by
  cases ch
  simp only at h
  simp [h]

/-- Symmetry, identity case: the child is already linked to the stored
parent and its foreign key agrees; the link setter no-ops and the
foreign-key setter only rewrites the (identical) foreign key and
repositions the child within the same index bucket. -/
theorem symmetry_case_ident (inv : Option IKind) (s : State) (c P v : Nat)
    (hin : (s.children c).inStore = true)
    (hid : (s.parents P).id = some v)
    (hstore : storeGetParent s v = some P)
    (hPl : (s.children c).link = some P)
    (hfkc : (s.children c).fk = some v)
    (hidx : ∀ k, c ∈ s.fkIndex k ↔ k = (s.children c).fk) :
    (∀ r, (belongsToSetLink inv s c (some P)).1.children r =
      (belongsToSetFK inv s c (some v)).children r) ∧
    (∀ r, (belongsToSetLink inv s c (some P)).1.parents r =
      (belongsToSetFK inv s c (some v)).parents r) ∧
    (∀ k r, r ∈ (belongsToSetLink inv s c (some P)).1.fkIndex k ↔
      r ∈ (belongsToSetFK inv s c (some v)).fkIndex k) := by
  have hL : belongsToSetLink inv s c (some P) = (s, some P) := by
    unfold belongsToSetLink
    rw [if_pos hPl.symm]
  have hcur : currentParentIdOf s c = some v := by
    unfold currentParentIdOf
    rw [hPl]
    exact hid
  have hg : ¬ (currentParentIdOf s c ≠ none ∧ currentParentIdOf s c ≠ some v) := by
    rintro ⟨_, h2⟩
    exact h2 hcur
  have hmidT : belongsToFKTeardown inv s c (some v) = s := by
    rcases inv with _ | ik
    · exact fkTeardown_none_inv s c (some v)
    · exact fkTeardown_guard_neg ik s c P (some v) hPl hg
  have hchEq : ∀ r, (fkMid inv s c v).children r = s.children r := by
    intro r
    by_cases hr : r = c
    · subst hr
      rw [fkMid_children_c]
      exact ChildRec_set_fk_self (s.children r) v hfkc
    · exact fkMid_children_ne inv s c v r hr
  have hin3 : ((fkMid inv s c v).children c).inStore = true := by
    rw [hchEq c]
    exact hin
  have hsg : storeGetParent (fkMid inv s c v) v = some P := by
    rw [fkMid_storeGet]
    exact hstore
  have hF : belongsToSetFK inv s c (some v) =
      (belongsToSetLink inv (fkMid inv s c v) c (some P)).1 :=
    setFK_some_eq inv s c v hin3 P hsg
  have hlink3 : ((fkMid inv s c v).children c).link = some P := by
    rw [fkMid_link]
    exact hPl
  have hnoop3 : belongsToSetLink inv (fkMid inv s c v) c (some P) = (fkMid inv s c v, some P) := by
    unfold belongsToSetLink
    rw [if_pos hlink3.symm]
  have hFmid : belongsToSetFK inv s c (some v) = fkMid inv s c v := by
    rw [hF, hnoop3]
  refine ⟨?_, ?_, ?_⟩
  · intro r
    rw [hL, hFmid]
    exact (hchEq r).symm
  · intro r
    rw [hL, hFmid, fkMid_parents]
    rw [hmidT]
  · intro k r
    rw [hL, hFmid, fkMid_fkIndex]
    by_cases hrc : r = c
    · subst hrc
      by_cases hk : k = some v
      · simp [hk, (hidx (some v)).mpr (by rw [hfkc])]
      · have : ¬ (r ∈ s.fkIndex k) := by
          intro hmem
          exact hk ((hidx k).mp hmem ▸ hfkc ▸ rfl)
        simp [hk, List.mem_filter, this]
    · by_cases hk : k = some v <;>
        simp [hk, List.mem_filter, List.mem_append, hrc]

/-- Symmetry, reattach case: the child is not currently linked to the
assigned parent; both entry points tear down the old inverse link (the
foreign-key path possibly twice, idempotently) and attach the canonical
stored parent, reaching the same children, parents and index buckets. -/
theorem symmetry_case_attach (inv : Option IKind) (s : State) (c P v : Nat)
    (hin : (s.children c).inStore = true)
    (hid : (s.parents P).id = some v)
    (hstore : storeGetParent s v = some P)
    (hcons : ∀ p1, (s.children c).link = some p1 →
      ((s.children c).fk = (s.parents p1).id ∧
       (inv = some IKind.hasOne → (s.parents p1).slot = some c)))
    (hPl : (s.children c).link ≠ some P) :
    (∀ r, (belongsToSetLink inv s c (some P)).1.children r =
      (belongsToSetFK inv s c (some v)).children r) ∧
    (∀ r, (belongsToSetLink inv s c (some P)).1.parents r =
      (belongsToSetFK inv s c (some v)).parents r) ∧
    (∀ k r, r ∈ (belongsToSetLink inv s c (some P)).1.fkIndex k ↔
      r ∈ (belongsToSetFK inv s c (some v)).fkIndex k) := by
  have hcondL : ¬ (some P = (s.children c).link) := fun h => hPl h.symm
  have hL : belongsToSetLink inv s c (some P) =
      belongsToAttach inv (belongsToTeardown inv s c) c P := by
    unfold belongsToSetLink
    rw [if_neg hcondL]
  have hin3 : ((fkMid inv s c v).children c).inStore = true := by
    rw [fkMid_inStore]
    exact hin
  have hsg : storeGetParent (fkMid inv s c v) v = some P := by
    rw [fkMid_storeGet]
    exact hstore
  have hF : belongsToSetFK inv s c (some v) =
      (belongsToSetLink inv (fkMid inv s c v) c (some P)).1 :=
    setFK_some_eq inv s c v hin3 P hsg
  have hlink3 : ((fkMid inv s c v).children c).link = (s.children c).link :=
    fkMid_link inv s c v
  have hcondF : ¬ (some P = ((fkMid inv s c v).children c).link) := by
    rw [hlink3]
    exact hcondL
  have hSL3 : belongsToSetLink inv (fkMid inv s c v) c (some P) =
      belongsToAttach inv (belongsToTeardown inv (fkMid inv s c v) c) c P := by
    unfold belongsToSetLink
    rw [if_neg hcondF]
  have hFA : belongsToSetFK inv s c (some v) =
      (belongsToAttach inv (belongsToTeardown inv (fkMid inv s c v) c) c P).1 := by
    rw [hF, hSL3]
  have hch3 : ∀ r, ((fkMid inv s c v).children r).id = (s.children r).id :=
    fkMid_children_id inv s c v
  -- the two teardown states agree on every parent
  have hTT : ∀ r, (belongsToTeardown inv (fkMid inv s c v) c).parents r =
      (belongsToTeardown inv s c).parents r := by
    rcases hl : (s.children c).link with _ | p1
    · have hTLs : belongsToTeardown inv s c = s := teardown_of_link_none inv s c hl
      have hlink3' : ((fkMid inv s c v).children c).link = none := by
        rw [hlink3, hl]
      have hTFs : belongsToTeardown inv (fkMid inv s c v) c = fkMid inv s c v :=
        teardown_of_link_none inv (fkMid inv s c v) c hlink3'
      have hmid : belongsToFKTeardown inv s c (some v) = s :=
        fkTeardown_of_link_none inv s c (some v) hl
      intro r
      rw [hTFs, hTLs, fkMid_parents, hmid]
    · rcases inv with _ | ik
      · intro r
        rw [teardown_none_inv, teardown_none_inv, fkMid_parents, fkTeardown_none_inv]
      · have hTL : belongsToTeardown (some ik) s c =
            removeInverseRelation ik s p1 c (s.children c).id :=
          teardown_some_some ik s c p1 hl
        have hl3 : ((fkMid (some ik) s c v).children c).link = some p1 := by
          rw [hlink3, hl]
        have hTF : belongsToTeardown (some ik) (fkMid (some ik) s c v) c =
            removeInverseRelation ik (fkMid (some ik) s c v) p1 c
              ((fkMid (some ik) s c v).children c).id :=
          teardown_some_some ik (fkMid (some ik) s c v) c p1 hl3
        rw [hch3 c] at hTF
        by_cases hg : currentParentIdOf s c ≠ none ∧ currentParentIdOf s c ≠ some v
        · have hmid : belongsToFKTeardown (some ik) s c (some v) = fkInlineRemove ik s p1 c :=
            fkTeardown_guard_pos ik s c p1 (some v) hl hg
          have hslot : ik = IKind.hasOne → (s.parents p1).slot = some c := by
            intro hik
            exact (hcons p1 hl).2 (by rw [hik])
          have hinline : ∀ r, (fkMid (some ik) s c v).parents r =
              (removeInverseRelation ik s p1 c (s.children c).id).parents r := by
            intro r
            rw [fkMid_parents, hmid]
            exact fkInlineRemove_eq_remove ik s p1 c hslot r
          intro r
          rw [hTF, hTL]
          exact remove_stable ik s (fkMid (some ik) s c v) p1 c (s.children c).id
            hinline hch3 r
        · have hmid : belongsToFKTeardown (some ik) s c (some v) = s :=
            fkTeardown_guard_neg ik s c p1 (some v) hl hg
          have hpar : ∀ r, (fkMid (some ik) s c v).parents r = s.parents r := by
            intro r
            rw [fkMid_parents, hmid]
          intro r
          rw [hTF, hTL]
          exact remove_congr ik s (fkMid (some ik) s c v) p1 c (s.children c).id
            hpar hch3 r
  -- facts about the two teardown states
  have hTLid : ((belongsToTeardown inv s c).parents P).id = some v := by
    rw [teardown_parents_id]
    exact hid
  have hTLsg : storeGetParent (belongsToTeardown inv s c) v = some P := by
    rw [storeGetParent_teardown]
    exact hstore
  have hTFid : ((belongsToTeardown inv (fkMid inv s c v) c).parents P).id = some v := by
    rw [teardown_parents_id, fkMid_parents_id]
    exact hid
  have hTFsg : storeGetParent (belongsToTeardown inv (fkMid inv s c v) c) v = some P := by
    rw [storeGetParent_teardown]
    exact hsg
  have resolL : (belongsToAttach inv (belongsToTeardown inv s c) c P).2 = some P := by
    rw [attach_resolves inv (belongsToTeardown inv s c) c P P v hTLid hTLsg]
    rcases ((belongsToTeardown inv s c).children c).inStore <;> simp
  have resolF : (belongsToAttach inv (belongsToTeardown inv (fkMid inv s c v) c) c P).2 =
      some P := by
    rw [attach_resolves inv (belongsToTeardown inv (fkMid inv s c v) c) c P P v hTFid hTFsg]
    rcases ((belongsToTeardown inv (fkMid inv s c v) c).children c).inStore <;> simp
  refine ⟨?_, ?_, ?_⟩
  · intro r
    by_cases hr : r = c
    · subst hr
      rw [hL, hFA, attach_children_self, attach_children_self, resolL, resolF, hTLid, hTFid]
      have hTLch : (belongsToTeardown inv s r).children r = s.children r := by
        rw [teardown_children]
      have hTFch : (belongsToTeardown inv (fkMid inv s r v) r).children r =
          { s.children r with fk := some v } := by
        rw [teardown_children]
        exact fkMid_children_c inv s r v
      rw [hTLch, hTFch]
    · rw [hL, hFA, attach_children_of_ne inv _ c P r hr, attach_children_of_ne inv _ c P r hr]
      rw [teardown_children, teardown_children]
      exact (fkMid_children_ne inv s c v r hr).symm
  · intro r
    rw [hL, hFA]
    rcases inv with _ | ik
    · rw [attach_parents_none, attach_parents_none]
      exact (hTT r).symm
    · rw [attach_parents_canonical ik _ c P v r hTLid hTLsg,
        attach_parents_canonical ik _ c P v r hTFid hTFsg]
      exact (setup_parents_pointwise ik _ _ P c hTT r).symm
  · intro k r
    rw [hL, hFA, attach_fkIndex, attach_fkIndex, hTLid, hTFid]
    have hTLidx : (belongsToTeardown inv s c).fkIndex k = s.fkIndex k := by
      rw [teardown_fkIndex]
    have hTFidx : (belongsToTeardown inv (fkMid inv s c v) c).fkIndex k =
        (fkMid inv s c v).fkIndex k := by
      rw [teardown_fkIndex]
    rw [hTLidx, hTFidx, fkMid_fkIndex]
    by_cases hk : k = some v
    · simp only [if_pos hk]
      rw [filterc_append_c]
    · simp only [if_neg hk]
      rw [filterc_idem]

/-- C3 (amended): assigning the scalar foreign key `setForeignKey(C, P.ID)`
and assigning the link field `setLink(C, P)` reach the same observable
state — same child records, same parent records (inverse slots/collections
included), same foreign-key index bucket membership — whenever P is the
canonical stored Parent for its identifier, C is present in its own
Collection, and C's current link, foreign key, HasOne inverse slot and
index bucket are mutually consistent. -/
theorem belongsTo_symmetry (inv : Option IKind) (s : State) (c P v : Nat)
    (hin : (s.children c).inStore = true)
    (hid : (s.parents P).id = some v)
    (hstore : storeGetParent s v = some P)
    (hcons : ∀ p1, (s.children c).link = some p1 →
      ((s.children c).fk = (s.parents p1).id ∧
       (inv = some IKind.hasOne → (s.parents p1).slot = some c)))
    (hidx : ∀ k, c ∈ s.fkIndex k ↔ k = (s.children c).fk) :
    (∀ r, (belongsToSetLink inv s c (some P)).1.children r =
      (belongsToSetFK inv s c (some v)).children r) ∧
    (∀ r, (belongsToSetLink inv s c (some P)).1.parents r =
      (belongsToSetFK inv s c (some v)).parents r) ∧
    (∀ k r, r ∈ (belongsToSetLink inv s c (some P)).1.fkIndex k ↔
      r ∈ (belongsToSetFK inv s c (some v)).fkIndex k) := by
  by_cases hPl : (s.children c).link = some P
  · exact symmetry_case_ident inv s c P v hin hid hstore hPl
      ((hcons P hPl).1.trans hid) hidx
  · exact symmetry_case_attach inv s c P v hin hid hstore hcons hPl

/-- C3 witness: in `stateTwoParents` (Child 0 consistently linked to
Parent 1), reassigning to stored Parent 2 through the link field and
through the foreign key yields the same child record, the same two parent
records and the same target index bucket. -/
theorem belongsTo_symmetry_witness :
    (belongsToSetLink (some IKind.hasMany) stateTwoParents 0 (some 2)).1.children 0 =
      (belongsToSetFK (some IKind.hasMany) stateTwoParents 0 (some 2)).children 0 ∧
    (belongsToSetLink (some IKind.hasMany) stateTwoParents 0 (some 2)).1.parents 1 =
      (belongsToSetFK (some IKind.hasMany) stateTwoParents 0 (some 2)).parents 1 ∧
    (belongsToSetLink (some IKind.hasMany) stateTwoParents 0 (some 2)).1.parents 2 =
      (belongsToSetFK (some IKind.hasMany) stateTwoParents 0 (some 2)).parents 2 ∧
    (0 ∈ (belongsToSetLink (some IKind.hasMany) stateTwoParents 0 (some 2)).1.fkIndex (some 2) ↔
      0 ∈ (belongsToSetFK (some IKind.hasMany) stateTwoParents 0 (some 2)).fkIndex (some 2)) := by
  have h := belongsTo_symmetry (some IKind.hasMany) stateTwoParents 0 2 2 rfl rfl
    (by decide)
    (by
      intro p1 hp1
      have hp : (1 : Nat) = p1 := by
        have h1 : (stateTwoParents.children 0).link = some 1 := rfl
        rw [h1] at hp1
        exact Option.some.inj hp1
      subst hp
      refine ⟨by decide, fun hcontra => absurd hcontra (by decide)⟩)
    (by
      intro k
      by_cases hk : k = some 1 <;> simp [stateTwoParents, hk])
  exact ⟨h.1 0, h.2.1 1, h.2.1 2, h.2.2 (some 2) 0⟩

theorem removeInverse_not_contains (ik : IKind) (s : State) (cp c : Nat) (id : Option Nat) :
    containsInverseB ik ((removeInverseRelation ik s cp c id).parents cp) c = false := by
  cases ik
  · by_cases h : (s.parents cp).slot = some c <;>
      simp [removeInverseRelation, containsInverseB, updParent, h]
  · simp only [removeInverseRelation, containsInverseB, updParent_parents_self]
    by_cases hid : id = none
    · simp [hid, List.mem_filter]
    · simp [hid, List.mem_filter]

theorem removeInverse_contains_other (ik : IKind) (s : State) (cp c : Nat) (id : Option Nat)
    (c' : Nat) (hne : c' ≠ c) (hid : (s.children c').id ≠ id ∨ id = none) :
    containsInverseB ik ((removeInverseRelation ik s cp c id).parents cp) c' =
      containsInverseB ik (s.parents cp) c' := by
  cases ik
  · by_cases h : (s.parents cp).slot = some c
    · simp only [removeInverseRelation, containsInverseB, updParent_parents_self, if_pos h]
      rw [h]
      simp [Ne.symm hne, (by intro hcontra; exact hne (Option.some.inj hcontra).symm :
        ¬ ((some c : Option Nat) = some c'))]
    · simp [removeInverseRelation, containsInverseB, updParent, h]
  · simp only [removeInverseRelation, containsInverseB, updParent_parents_self]
    by_cases hidn : id = none
    · simp [hidn, List.mem_filter, hne]
    · rcases hid with hid | hid
      · simp [hidn, List.mem_filter, hne, hid]
      · exact absurd hid hidn

theorem setup_contains (ik : IKind) (t : State) (np c : Nat) :
    containsInverseB ik ((setupInverseRelation ik t np c).parents np) c = true := by
  cases ik
  · simp [setupInverseRelation, containsInverseB, updParent]
  · by_cases h : c ∈ (t.parents np).many <;>
      simp [setupInverseRelation, containsInverseB, updParent, h]

theorem setup_hasOne_contains_other (t : State) (np c c' : Nat) (hne : c' ≠ c) :
    containsInverseB IKind.hasOne
      ((setupInverseRelation IKind.hasOne t np c).parents np) c' = false := by
  simp only [setupInverseRelation, containsInverseB, updParent_parents_self]
  simp [Ne.symm hne]

theorem setup_hasMany_contains_other (t : State) (np c c' : Nat) (hne : c' ≠ c) :
    containsInverseB IKind.hasMany
      ((setupInverseRelation IKind.hasMany t np c).parents np) c' =
    containsInverseB IKind.hasMany (t.parents np) c' := by
  by_cases h : c ∈ (t.parents np).many <;>
    simp [setupInverseRelation, containsInverseB, updParent, h, hne, Ne.symm hne]

theorem invCons_contains_false_of_link_ne (ik : IKind) (t : State) (c' pr : Nat)
    (hIC : inverseConsistentB ik t c' pr = true)
    (h : ¬ ((t.children c').link = some pr)) :
    containsInverseB ik (t.parents pr) c' = false := by
  unfold inverseConsistentB at hIC
  rw [beq_iff_eq] at hIC
  rw [hIC]
  simp [h]

theorem invCons_of_false_false (ik : IKind) (t : State) (c' pr : Nat)
    (hA : containsInverseB ik (t.parents pr) c' = false)
    (hC : ¬ ((t.children c').link = some pr)) :
    inverseConsistentB ik t c' pr = true := by
  unfold inverseConsistentB
  rw [beq_iff_eq, hA]
  simp [hC]

theorem invCons_of_true_true (ik : IKind) (t : State) (c' pr : Nat)
    (hA : containsInverseB ik (t.parents pr) c' = true)
    (hB : (t.children c').fk = (t.parents pr).id)
    (hC : (t.children c').link = some pr) :
    inverseConsistentB ik t c' pr = true := by
  unfold inverseConsistentB
  rw [beq_iff_eq, hA]
  simp [hB, hC]

theorem invCons_congr (ik : IKind) (t t' : State) (c' pr : Nat)
    (hch : t.children c' = t'.children c')
    (hid : (t.parents pr).id = (t'.parents pr).id)
    (hcont : containsInverseB ik (t.parents pr) c' = containsInverseB ik (t'.parents pr) c') :
    inverseConsistentB ik t c' pr = inverseConsistentB ik t' c' pr := by
  unfold inverseConsistentB
  rw [hch, hid, hcont]

theorem linkFk_congr (t t' : State) (c' : Nat)
    (hch : t.children c' = t'.children c')
    (hpar : ∀ pr, (t.parents pr).id = (t'.parents pr).id) :
    linkFkConsistentB t c' = linkFkConsistentB t' c' := by
  unfold linkFkConsistentB
  rw [hch]
  rcases hl : (t'.children c').link with _ | pr
  · rfl
  · show decide ((t'.children c').fk = (t.parents pr).id) =
      decide ((t'.children c').fk = (t'.parents pr).id)
    rw [hpar pr]

theorem linkFk_none (t : State) (c' : Nat) (h : (t.children c').link = none) :
    linkFkConsistentB t c' = true := by
  unfold linkFkConsistentB
  rw [h]

theorem linkFk_some (t : State) (c' pr : Nat) (h : (t.children c').link = some pr)
    (hfk : (t.children c').fk = (t.parents pr).id) :
    linkFkConsistentB t c' = true := by
  unfold linkFkConsistentB
  rw [h]
  simp [hfk]

theorem attach_ret_some (inv : Option IKind) (t : State) (c p0 : Nat) :
    ∃ p', (belongsToAttach inv t c p0).2 = some p' := by
  unfold belongsToAttach
  exact ⟨_, rfl⟩

theorem attach_ret_id (inv : Option IKind) (t : State) (c p0 p' : Nat)
    (h : (belongsToAttach inv t c p0).2 = some p') :
    (t.parents p').id = (t.parents p0).id := by
  have h' : (match (t.parents p0).id, (t.children c).inStore with
      | some v, true => (storeGetParent t v).getD p0
      | _, _ => p0) = p' := Option.some.inj h
  rcases hrel : (t.parents p0).id with _ | v
  · rw [hrel] at h'
    simp only [] at h'
    rw [← h']
    exact hrel
  · rw [hrel] at h'
    rcases hin : (t.children c).inStore with _ | _ <;> rw [hin] at h'
    · simp only [] at h'
      rw [← h']
      exact hrel
    · simp only [] at h'
      rcases hsg : storeGetParent t v with _ | q <;> rw [hsg] at h'
      · simp only [Option.getD_none] at h'
        rw [← h']
        exact hrel
      · simp only [Option.getD_some] at h'
        subst h'
        have hq := List.find?_some hsg
        rw [decide_eq_true_eq] at hq
        rw [hq]

/-- The attach phase's parent mutations are exactly `setupInverseRelation`
on the resolved parent (and nothing at all without an inverse). -/
theorem attach_parents_eq_setup (ik : IKind) (t : State) (c p0 : Nat) (r : Nat) :
    (belongsToAttach (some ik) t c p0).1.parents r =
      (setupInverseRelation ik t
        ((belongsToAttach (some ik) t c p0).2.getD p0) c).parents r := by
  unfold belongsToAttach
  cases ik <;> rfl

theorem setLink_unset_eq (inv : Option IKind) (s : State) (c : Nat)
    (h0 : ¬ ((none : Option Nat) = (s.children c).link)) :
    belongsToSetLink inv s c none =
      (updChild (belongsToTeardown inv s c) c (fun ch => { ch with link := none }), none) := by
  unfold belongsToSetLink
  rw [if_neg h0]

theorem setLink_attach_eq (inv : Option IKind) (s : State) (c p0 : Nat)
    (h0 : ¬ (some p0 = (s.children c).link)) :
    belongsToSetLink inv s c (some p0) =
      belongsToAttach inv (belongsToTeardown inv s c) c p0 := by
  unfold belongsToSetLink
  rw [if_neg h0]

/-- A complete non-trivial run of the link-field setter preserves the
`Child.L defined implies Child.FK = Child.L.ID` half of the invariant for
every child. -/
theorem setLink_linkFk_preserved (inv : Option IKind) (s : State) (c : Nat)
    (rec? : Option Nat) (h0 : ¬ (rec? = (s.children c).link)) (c' : Nat)
    (hLF : linkFkConsistentB s c' = true) :
    linkFkConsistentB (belongsToSetLink inv s c rec?).1 c' = true := by
  rcases hrec : rec? with _ | p0
  · subst hrec
    rw [setLink_unset_eq inv s c h0]
    show linkFkConsistentB
      (updChild (belongsToTeardown inv s c) c (fun ch => { ch with link := none })) c' = true
    by_cases hcc : c' = c
    · rw [hcc]
      apply linkFk_none
      rw [updChild_children_self]
    · have hcongr := linkFk_congr
        (updChild (belongsToTeardown inv s c) c (fun ch => { ch with link := none })) s c'
        (by rw [updChild_children_of_ne _ _ _ _ hcc, teardown_children])
        (fun pr => teardown_parents_id inv s c pr)
      rw [hcongr]
      exact hLF
  · subst hrec
    rw [setLink_attach_eq inv s c p0 h0]
    obtain ⟨p', hp'⟩ := attach_ret_some inv (belongsToTeardown inv s c) c p0
    by_cases hcc : c' = c
    · rw [hcc]
      apply linkFk_some _ c p'
      · rw [attach_children_self, hp']
      · rw [attach_children_self, hp']
        show ((belongsToTeardown inv s c).parents p0).id = _
        rw [attach_parents_id]
        exact (attach_ret_id inv (belongsToTeardown inv s c) c p0 p' hp').symm
    · have hcongr := linkFk_congr
        (belongsToAttach inv (belongsToTeardown inv s c) c p0).1 s c'
        (by rw [attach_children_of_ne inv _ c p0 c' hcc, teardown_children])
        (fun pr => by rw [attach_parents_id]; exact teardown_parents_id inv s c pr)
      rw [hcongr]
      exact hLF

/-- C1 (amended): the cross-entity invariant is preserved by every
complete run of the BelongsTo link-field setter, provided the considered
Child records' identifiers do not collide with the acted-on child's (or
its identifier is undefined), and — for a HasOne inverse — no other
considered child is currently linked to the resolved target parent
(whose slot the setter overwrites).  The foreign-key setter does not
preserve it in general: see the counterexample. -/
theorem belongsTo_invariant_preserved_by_setLink
    (inv : Option IKind) (s : State) (c : Nat) (rec? : Option Nat) (Cs Ps : List Nat)
    (hInv : invariantB inv s Cs Ps = true)
    (huniq : ∀ c' ∈ Cs, c' ≠ c →
      (s.children c').id ≠ (s.children c).id ∨ (s.children c).id = none)
    (hsteal : inv = some IKind.hasOne → ∀ p',
      (belongsToSetLink inv s c rec?).2 = some p' →
      ∀ c' ∈ Cs, c' ≠ c → (s.children c').link ≠ some p') :
    invariantB inv (belongsToSetLink inv s c rec?).1 Cs Ps = true := by
  by_cases h0 : rec? = (s.children c).link
  · have hnoop : belongsToSetLink inv s c rec? = (s, rec?) := by
      unfold belongsToSetLink
      rw [if_pos h0]
    rw [hnoop]
    exact hInv
  rcases inv with _ | ik
  · simp only [invariantB, List.all_eq_true, Bool.and_true] at hInv ⊢
    intro c' hc'
    exact setLink_linkFk_preserved none s c rec? h0 c' (hInv c' hc')
  · simp only [invariantB, List.all_eq_true, Bool.and_eq_true] at hInv ⊢
    intro c' hc'
    obtain ⟨hLF, hIC⟩ := hInv c' hc'
    refine ⟨setLink_linkFk_preserved (some ik) s c rec? h0 c' hLF, ?_⟩
    intro pr hpr
    have hICpr := hIC pr hpr
    by_cases hcc : c' = c
    · rw [hcc] at hIC hICpr ⊢
      have hTfalse : ∀ pr', pr' ∈ Ps →
          containsInverseB ik ((belongsToTeardown (some ik) s c).parents pr') c = false := by
        intro pr' hpr'
        rcases hl : (s.children c).link with _ | cp
        · rw [teardown_of_link_none (some ik) s c hl]
          exact invCons_contains_false_of_link_ne ik s c pr' (hIC pr' hpr')
            (by rw [hl]; exact fun hx => Option.noConfusion hx)
        · rw [teardown_some_some ik s c cp hl]
          by_cases hpc : pr' = cp
          · rw [hpc]
            exact removeInverse_not_contains ik s cp c (s.children c).id
          · rw [removeInverse_parents_of_ne ik s cp c (s.children c).id pr' hpc]
            exact invCons_contains_false_of_link_ne ik s c pr' (hIC pr' hpr')
              (by rw [hl]; exact fun hx => hpc (Option.some.inj hx).symm)
      rcases hrec : rec? with _ | p0
      · subst hrec
        rw [setLink_unset_eq (some ik) s c h0]
        show inverseConsistentB ik
          (updChild (belongsToTeardown (some ik) s c) c (fun ch => { ch with link := none }))
          c pr = true
        apply invCons_of_false_false
        · exact hTfalse pr hpr
        · rw [updChild_children_self]
          exact fun hx => Option.noConfusion hx
      · subst hrec
        rw [setLink_attach_eq (some ik) s c p0 h0]
        obtain ⟨p', hp'⟩ :=
          attach_ret_some (some ik) (belongsToTeardown (some ik) s c) c p0
        have hRpar : ∀ r,
            (belongsToAttach (some ik) (belongsToTeardown (some ik) s c) c p0).1.parents r =
            (setupInverseRelation ik (belongsToTeardown (some ik) s c) p' c).parents r := by
          intro r
          have h := attach_parents_eq_setup ik (belongsToTeardown (some ik) s c) c p0 r
          rw [hp'] at h
          simpa using h
        have hchRc :
            (belongsToAttach (some ik) (belongsToTeardown (some ik) s c) c p0).1.children c =
            { (belongsToTeardown (some ik) s c).children c with
                link := some p',
                fk := ((belongsToTeardown (some ik) s c).parents p0).id } := by
          rw [attach_children_self, hp']
        by_cases hpp : pr = p'
        · apply invCons_of_true_true
          · rw [hpp, hRpar p']
            exact setup_contains ik _ p' c
          · rw [hchRc]
            show ((belongsToTeardown (some ik) s c).parents p0).id = _
            rw [hpp, hRpar p', setupInverse_parents_id]
            exact (attach_ret_id (some ik) (belongsToTeardown (some ik) s c) c p0 p' hp').symm
          · rw [hchRc, hpp]
        · apply invCons_of_false_false
          · rw [hRpar pr, setupInverse_parents_of_ne ik _ p' c pr hpp]
            exact hTfalse pr hpr
          · rw [hchRc]
            exact fun hx => hpp (Option.some.inj hx).symm
    · have hcontT : ∀ pr',
          containsInverseB ik ((belongsToTeardown (some ik) s c).parents pr') c' =
          containsInverseB ik (s.parents pr') c' := by
        intro pr'
        rcases hl : (s.children c).link with _ | cp
        · rw [teardown_of_link_none (some ik) s c hl]
        · rw [teardown_some_some ik s c cp hl]
          by_cases hpc : pr' = cp
          · rw [hpc]
            exact removeInverse_contains_other ik s cp c (s.children c).id c' hcc
              (huniq c' hc' hcc)
          · rw [removeInverse_parents_of_ne ik s cp c (s.children c).id pr' hpc]
      rcases hrec : rec? with _ | p0
      · subst hrec
        rw [setLink_unset_eq (some ik) s c h0]
        show inverseConsistentB ik
          (updChild (belongsToTeardown (some ik) s c) c (fun ch => { ch with link := none }))
          c' pr = true
        have hcongr := invCons_congr ik
          (updChild (belongsToTeardown (some ik) s c) c (fun ch => { ch with link := none }))
          s c' pr
          (by rw [updChild_children_of_ne _ _ _ _ hcc, teardown_children])
          (teardown_parents_id (some ik) s c pr)
          (hcontT pr)
        rw [hcongr]
        exact hICpr
      · subst hrec
        rw [setLink_attach_eq (some ik) s c p0 h0]
        obtain ⟨p', hp'⟩ :=
          attach_ret_some (some ik) (belongsToTeardown (some ik) s c) c p0
        have hRpar : ∀ r,
            (belongsToAttach (some ik) (belongsToTeardown (some ik) s c) c p0).1.parents r =
            (setupInverseRelation ik (belongsToTeardown (some ik) s c) p' c).parents r := by
          intro r
          have h := attach_parents_eq_setup ik (belongsToTeardown (some ik) s c) c p0 r
          rw [hp'] at h
          simpa using h
        have hchRc' :
            (belongsToAttach (some ik) (belongsToTeardown (some ik) s c) c p0).1.children c' =
            s.children c' := by
          rw [attach_children_of_ne (some ik) _ c p0 c' hcc, teardown_children]
        have hidR : ∀ pr',
            ((belongsToAttach (some ik) (belongsToTeardown (some ik) s c) c p0).1.parents pr').id =
            (s.parents pr').id := by
          intro pr'
          rw [attach_parents_id]
          exact teardown_parents_id (some ik) s c pr'
        by_cases hpp : pr = p'
        · cases ik with
          | hasOne =>
            apply invCons_of_false_false
            · rw [hpp, hRpar p']
              exact setup_hasOne_contains_other _ p' c c' hcc
            · rw [hchRc', hpp]
              exact hsteal rfl p'
                (by rw [setLink_attach_eq (some IKind.hasOne) s c p0 h0]; exact hp')
                c' hc' hcc
          | hasMany =>
            have hcont2 : containsInverseB IKind.hasMany
                ((belongsToAttach (some IKind.hasMany) (belongsToTeardown (some IKind.hasMany) s c) c p0).1.parents pr) c' =
                containsInverseB IKind.hasMany (s.parents pr) c' := by
              rw [hpp, hRpar p', setup_hasMany_contains_other _ p' c c' hcc]
              rw [← hpp]
              exact hcontT pr
            have hcongr := invCons_congr IKind.hasMany
              (belongsToAttach (some IKind.hasMany) (belongsToTeardown (some IKind.hasMany) s c) c p0).1
              s c' pr hchRc' (hidR pr) hcont2
            rw [hcongr]
            exact hICpr
        · have hcont2 : containsInverseB ik
              ((belongsToAttach (some ik) (belongsToTeardown (some ik) s c) c p0).1.parents pr) c' =
              containsInverseB ik (s.parents pr) c' := by
            rw [hRpar pr, setupInverse_parents_of_ne ik _ p' c pr hpp]
            exact hcontT pr
          have hcongr := invCons_congr ik
            (belongsToAttach (some ik) (belongsToTeardown (some ik) s c) c p0).1
            s c' pr hchRc' (hidR pr) hcont2
          rw [hcongr]
          exact hICpr

/-- C1 witness: in `stateTwoParents` (invariant-satisfying), relinking
Child 0 to stored Parent 2 through the link-field setter preserves the
invariant. -/
theorem belongsTo_invariant_preserved_by_setLink_witness :
    invariantB (some IKind.hasMany)
      (belongsToSetLink (some IKind.hasMany) stateTwoParents 0 (some 2)).1 [0] [1, 2] = true :=
  belongsTo_invariant_preserved_by_setLink (some IKind.hasMany) stateTwoParents 0 (some 2)
    [0] [1, 2] (by decide) (by decide) (fun h => absurd h (by decide))
